import Mathlib

/-!
Formal model of the ilp-rs core: the ILP packet codec (src/ilp/packet.rs)
and the STREAM connection state machine (src/stream/connection.rs).

Conventions of the embedding:
* Bytes are `Nat` values below 256; byte buffers are `List Nat`.
* Rust `u64` arithmetic is modelled on `Nat` with an explicit `% 2 ^ 64`
  where the Rust computation can wrap, and `Nat` truncated subtraction
  where the source subtracts counters it keeps in balance.
* A Rust panic (slice index out of bounds, `Option::unwrap` on `None`,
  `HashMap` index on a missing key, `u64` division by zero) is modelled by
  an `Option` result of `none`.
* Code of the repository that is not under src/ (the oer length-prefix
  helpers, the chrono timestamp formatter and parser, the STREAM frame
  codec and payload encryption, the DataMoneyStream buffers) is modelled
  from the spec, as marked on each such definition.
-/

namespace IlpRs

abbrev ByteBuf := List Nat

/-- Big-endian digits of `n` in base `base`, padded to width `w`
    (most significant digit first). Used for the byteorder u64 encoder
    and for the oer length bytes. -/
def padBase (base : Nat) : Nat → Nat → List Nat
  | 0, _ => []
  | w + 1, n => padBase base w (n / base) ++ [n % base]

/-- Recompose big-endian digits in base `base`. -/
def readBase (base : Nat) (ds : List Nat) : Nat :=
  ds.foldl (fun acc d => acc * base + d) 0

/-- Cursor read of exactly `n` bytes; `none` models the io::Error returned
    by `Read::read_exact` on a short buffer. -/
def readExact : Nat → ByteBuf → Option (List Nat × ByteBuf)
  | 0, buf => some ([], buf)
  | _ + 1, [] => none
  | n + 1, b :: rest =>
    match readExact n rest with
    | some (xs, r) => some (b :: xs, r)
    | none => none

/-- Cursor read of one byte (`ReadBytesExt::read_u8`). -/
def readU8 : ByteBuf → Option (Nat × ByteBuf)
  | [] => none
  | b :: rest => some (b, rest)

/-- Cursor read of a big-endian u64 (`ReadBytesExt::read_u64::<BigEndian>`). -/
def readU64BE (buf : ByteBuf) : Option (Nat × ByteBuf) :=
  match readExact 8 buf with
  | some (xs, r) => some (readBase 256 xs, r)
  | none => none

/-- Big-endian u64 encoder (`BufMut::put_u64_be`). -/
def putU64BE (n : Nat) : ByteBuf := padBase 256 8 n

/-- Modelled from the spec: the OER var_octet_string length header (the oer
    crate is not under src/). A single byte below 128 is the length itself;
    otherwise the byte `0x80 | k` announces `k` (1-3) big-endian length
    bytes. -/
def lengthHeader (len : Nat) : ByteBuf :=
  if len < 128 then [len]
  else if len < 256 then [0x81, len]
  else if len < 65536 then 0x82 :: padBase 256 2 len
  else 0x83 :: padBase 256 3 len

/-- Modelled from the spec: `MutBufOerExt::put_var_octet_string`. -/
def putVarOctetString (s : ByteBuf) : ByteBuf := lengthHeader s.length ++ s

/-- Modelled from the spec: `ReadOerExt::read_var_octet_string`. Malformed
    length headers (zero or more than three length bytes) are rejected. -/
def readVarOctetString (buf : ByteBuf) : Option (ByteBuf × ByteBuf) :=
  match readU8 buf with
  | none => none
  | some (b, rest) =>
    if b < 128 then readExact b rest
    else
      let k := b - 128
      if k = 0 ∨ 3 < k then none
      else
        match readExact k rest with
        | none => none
        | some (lenBytes, rest2) => readExact (readBase 256 lenBytes) rest2

/-- ParseError of src/ilp/errors.rs (payload strings kept where the source
    builds them). -/
inductive ParseError
  | invalidPacket (reason : String)
  | wrongType (description : String)
  | utf8
  | io
  | chrono
deriving DecidableEq

/-- Modelled from the Rust standard library contract of
    `String::from_utf8`: the state of the UTF-8 validation automaton —
    `k` pending continuation bytes, the next one restricted to
    `lo`..`hi` (the tightened ranges rule out overlong forms, surrogates
    and values above U+10FFFF). -/
def utf8Aux : List Nat → Nat → Nat → Nat → Bool
  | [], k, _, _ => k == 0
  | c :: rest, k + 1, lo, hi =>
    if lo ≤ c ∧ c ≤ hi then utf8Aux rest k 0x80 0xBF else false
  | b :: rest, 0, _, _ =>
    if b < 0x80 then utf8Aux rest 0 0x80 0xBF
    else if 0xC2 ≤ b ∧ b ≤ 0xDF then utf8Aux rest 1 0x80 0xBF
    else if 0xE0 ≤ b ∧ b ≤ 0xEF then
      utf8Aux rest 2 (if b = 0xE0 then 0xA0 else 0x80) (if b = 0xED then 0x9F else 0xBF)
    else if 0xF0 ≤ b ∧ b ≤ 0xF4 then
      utf8Aux rest 3 (if b = 0xF0 then 0x90 else 0x80) (if b = 0xF4 then 0x8F else 0xBF)
    else false

/-- Modelled from the Rust standard library contract of
    `String::from_utf8`: UTF-8 validity of a byte sequence. -/
def validUtf8 (l : List Nat) : Bool := utf8Aux l 0 0x80 0xBF

/-- A chrono `DateTime<Utc>` restricted to the millisecond precision the
    wire format carries. -/
structure DateTimeMs where
  year : Nat
  month : Nat
  day : Nat
  hour : Nat
  minute : Nat
  second : Nat
  milli : Nat
deriving DecidableEq

def isLeapYear (y : Nat) : Bool := (y % 4 == 0 && y % 100 != 0) || y % 400 == 0

def daysInMonth (y m : Nat) : Nat :=
  if m = 2 then (if isLeapYear y then 29 else 28)
  else if m = 4 ∨ m = 6 ∨ m = 9 ∨ m = 11 then 30
  else 31

/-- Calendar validity as chrono enforces it when parsing; years are below
    10000 so that the `%Y` field occupies exactly four digits. -/
def DateTimeMs.valid (d : DateTimeMs) : Prop :=
  d.year < 10000 ∧ 1 ≤ d.month ∧ d.month ≤ 12 ∧ 1 ≤ d.day ∧
  d.day ≤ daysInMonth d.year d.month ∧ d.hour < 24 ∧ d.minute < 60 ∧
  d.second < 60 ∧ d.milli < 1000

instance (d : DateTimeMs) : Decidable d.valid := by
  unfold DateTimeMs.valid; infer_instance

def pad2 (n : Nat) : ByteBuf := [n / 10 % 10 + 48, n % 10 + 48]

def pad3 (n : Nat) : ByteBuf := [n / 100 % 10 + 48, n / 10 % 10 + 48, n % 10 + 48]

def pad4 (n : Nat) : ByteBuf :=
  [n / 1000 % 10 + 48, n / 100 % 10 + 48, n / 10 % 10 + 48, n % 10 + 48]

/-- Modelled from the spec: chrono formatting with
    INTERLEDGER_TIMESTAMP_FORMAT ("%Y%m%d%H%M%S%3f"), as the ASCII bytes
    the encoder writes (zero padded, 17 bytes for valid values). -/
def formatTimestamp (d : DateTimeMs) : ByteBuf :=
  pad4 d.year ++ pad2 d.month ++ pad2 d.day ++ pad2 d.hour ++ pad2 d.minute ++
    pad2 d.second ++ pad3 d.milli

def dec2 (a b : Nat) : Nat := (a - 48) * 10 + (b - 48)

def dec3 (a b c : Nat) : Nat := ((a - 48) * 10 + (b - 48)) * 10 + (c - 48)

def dec4 (a b c d : Nat) : Nat := (((a - 48) * 10 + (b - 48)) * 10 + (c - 48)) * 10 + (d - 48)

/-- The digit recombination step of the timestamp parser. -/
def parseDigits (y1 y2 y3 y4 o1 o2 d1 d2 h1 h2 m1 m2 s1 s2 f1 f2 f3 : Nat) :
    Option DateTimeMs :=
  if 48 ≤ y1 ∧ y1 ≤ 57 ∧ 48 ≤ y2 ∧ y2 ≤ 57 ∧ 48 ≤ y3 ∧ y3 ≤ 57 ∧ 48 ≤ y4 ∧ y4 ≤ 57 ∧
     48 ≤ o1 ∧ o1 ≤ 57 ∧ 48 ≤ o2 ∧ o2 ≤ 57 ∧ 48 ≤ d1 ∧ d1 ≤ 57 ∧ 48 ≤ d2 ∧ d2 ≤ 57 ∧
     48 ≤ h1 ∧ h1 ≤ 57 ∧ 48 ≤ h2 ∧ h2 ≤ 57 ∧ 48 ≤ m1 ∧ m1 ≤ 57 ∧ 48 ≤ m2 ∧ m2 ≤ 57 ∧
     48 ≤ s1 ∧ s1 ≤ 57 ∧ 48 ≤ s2 ∧ s2 ≤ 57 ∧ 48 ≤ f1 ∧ f1 ≤ 57 ∧ 48 ≤ f2 ∧ f2 ≤ 57 ∧
     48 ≤ f3 ∧ f3 ≤ 57 then
    if (⟨dec4 y1 y2 y3 y4, dec2 o1 o2, dec2 d1 d2, dec2 h1 h2, dec2 m1 m2,
        dec2 s1 s2, dec3 f1 f2 f3⟩ : DateTimeMs).valid then
      some ⟨dec4 y1 y2 y3 y4, dec2 o1 o2, dec2 d1 d2, dec2 h1 h2, dec2 m1 m2,
        dec2 s1 s2, dec3 f1 f2 f3⟩
    else none
  else none

/-- Modelled from the spec: `Utc.datetime_from_str` with the same format
    string: exactly 17 ASCII digits, with calendar validity checked. -/
def parseTimestamp : ByteBuf → Option DateTimeMs
  | [y1, y2, y3, y4, o1, o2, d1, d2, h1, h2, m1, m2, s1, s2, f1, f2, f3] =>
    parseDigits y1 y2 y3 y4 o1 o2 d1 d2 h1 h2 m1 m2 s1 s2 f1 f2 f3
  | _ => none

/-- PacketType of src/ilp/packet.rs. -/
inductive PacketType
  | IlpPrepare
  | IlpFulfill
  | IlpReject
  | Unknown
deriving DecidableEq

/-- `impl From<u8> for PacketType`. -/
def PacketType.fromByte (t : Nat) : PacketType :=
  if t = 12 then .IlpPrepare
  else if t = 13 then .IlpFulfill
  else if t = 14 then .IlpReject
  else .Unknown

/-- The `#[repr(u8)]` discriminant used by `serialize_envelope`. -/
def PacketType.toByte : PacketType → Nat
  | .IlpPrepare => 12
  | .IlpFulfill => 13
  | .IlpReject => 14
  | .Unknown => 15

def serialize_envelope (packet_type : PacketType) (contents : ByteBuf) : ByteBuf :=
  packet_type.toByte :: putVarOctetString contents

def deserialize_envelope (bytes : ByteBuf) : Except ParseError (PacketType × ByteBuf) :=
  match readU8 bytes with
  | none => .error .io
  | some (t, rest) =>
    match readVarOctetString rest with
    | none => .error .io
    | some (contents, _) => .ok (PacketType.fromByte t, contents)

/-- IlpPrepare of src/ilp/packet.rs. Rust `String` fields are modelled by
    their UTF-8 bytes. -/
structure IlpPrepare where
  amount : Nat
  expires_at : DateTimeMs
  execution_condition : ByteBuf
  destination : ByteBuf
  data : ByteBuf
deriving DecidableEq

/-- The envelope contents `IlpPrepare::to_bytes` builds before framing. -/
def IlpPrepare.body (p : IlpPrepare) : ByteBuf :=
  putU64BE p.amount ++ (formatTimestamp p.expires_at ++ (p.execution_condition ++
    (putVarOctetString p.destination ++ putVarOctetString p.data)))

def IlpPrepare.to_bytes (p : IlpPrepare) : ByteBuf :=
  serialize_envelope .IlpPrepare p.body

def IlpPrepare.from_bytes (bytes : ByteBuf) : Except ParseError IlpPrepare :=
  match deserialize_envelope bytes with
  | .error e => .error e
  | .ok (packet_type, contents) =>
    if packet_type ≠ PacketType.IlpPrepare then
      .error (.wrongType "attempted to deserialize other packet type as IlpPrepare")
    else
      match readU64BE contents with
      | none => .error .io
      | some (amount, r1) =>
        match readExact 17 r1 with
        | none => .error .io
        | some (expires_at_buf, r2) =>
          if ¬ validUtf8 expires_at_buf then .error .utf8
          else
            match parseTimestamp expires_at_buf with
            | none => .error .chrono
            | some expires_at =>
              match readExact 32 r2 with
              | none => .error .io
              | some (execution_condition, r3) =>
                match readVarOctetString r3 with
                | none => .error .io
                | some (destination_bytes, r4) =>
                  if ¬ validUtf8 destination_bytes then
                    .error (.invalidPacket "destination is not utf8")
                  else
                    match readVarOctetString r4 with
                    | none => .error .io
                    | some (data, _) =>
                      .ok ⟨amount, expires_at, execution_condition, destination_bytes, data⟩

/-- IlpFulfill of src/ilp/packet.rs. -/
structure IlpFulfill where
  fulfillment : ByteBuf
  data : ByteBuf
deriving DecidableEq

/-- `IlpFulfill::to_bytes` slices `fulfillment[0..32]`, which panics when
    the fulfillment is shorter than 32 bytes; hence the Option result. -/
def IlpFulfill.to_bytes (f : IlpFulfill) : Option ByteBuf :=
  if f.fulfillment.length < 32 then none
  else some (serialize_envelope .IlpFulfill (f.fulfillment.take 32 ++ putVarOctetString f.data))

def IlpFulfill.from_bytes (bytes : ByteBuf) : Except ParseError IlpFulfill :=
  match deserialize_envelope bytes with
  | .error e => .error e
  | .ok (packet_type, contents) =>
    if packet_type ≠ PacketType.IlpFulfill then
      .error (.wrongType "attempted to deserialize other packet type as IlpFulfill")
    else
      match readExact 32 contents with
      | none => .error .io
      | some (fulfillment, r1) =>
        match readVarOctetString r1 with
        | none => .error .io
        | some (data, _) => .ok ⟨fulfillment, data⟩

/-- IlpReject of src/ilp/packet.rs (declaration field order: code, message,
    triggered_by, data; the wire order is code, triggered_by, message,
    data). -/
structure IlpReject where
  code : ByteBuf
  message : ByteBuf
  triggered_by : ByteBuf
  data : ByteBuf
deriving DecidableEq

def IlpReject.to_bytes (r : IlpReject) : ByteBuf :=
  serialize_envelope .IlpReject
    (r.code ++ (putVarOctetString r.triggered_by ++
      (putVarOctetString r.message ++ putVarOctetString r.data)))

def IlpReject.from_bytes (bytes : ByteBuf) : Except ParseError IlpReject :=
  match deserialize_envelope bytes with
  | .error e => .error e
  | .ok (packet_type, contents) =>
    if packet_type ≠ PacketType.IlpReject then
      .error (.wrongType "attempted to deserialize other packet type as IlpReject")
    else
      match readExact 3 contents with
      | none => .error .io
      | some (code_bytes, r1) =>
        if ¬ validUtf8 code_bytes then .error (.invalidPacket "code is not utf8")
        else
          match readVarOctetString r1 with
          | none => .error .io
          | some (triggered_by_bytes, r2) =>
            if ¬ validUtf8 triggered_by_bytes then
              .error (.invalidPacket "triggered_by is not utf8")
            else
              match readVarOctetString r2 with
              | none => .error .io
              | some (message_bytes, r3) =>
                if ¬ validUtf8 message_bytes then
                  .error (.invalidPacket "message is not utf8")
                else
                  match readVarOctetString r3 with
                  | none => .error .io
                  | some (data, _) =>
                    .ok ⟨code_bytes, message_bytes, triggered_by_bytes, data⟩

/-- IlpPacket of src/ilp/packet.rs. -/
inductive IlpPacket
  | prepare (p : IlpPrepare)
  | fulfill (f : IlpFulfill)
  | reject (r : IlpReject)
deriving DecidableEq

/-- `IlpPacket::from_bytes` starts with `bytes[0]`, a slice index that
    panics on an empty input; the panic is the outer `none`. -/
def IlpPacket.from_bytes : ByteBuf → Option (Except ParseError IlpPacket)
  | [] => none
  | t :: rest =>
    some (match PacketType.fromByte t with
      | .IlpPrepare => (IlpPrepare.from_bytes (t :: rest)).map IlpPacket.prepare
      | .IlpFulfill => (IlpFulfill.from_bytes (t :: rest)).map IlpPacket.fulfill
      | .IlpReject => (IlpReject.from_bytes (t :: rest)).map IlpPacket.reject
      | .Unknown => .error (.invalidPacket "Unknown packet type"))

def IlpPacket.to_bytes : IlpPacket → Option ByteBuf
  | .prepare p => some p.to_bytes
  | .fulfill f => f.to_bytes
  | .reject r => some r.to_bytes

/-- Well-formedness of a Prepare as the round-trip claim assumes it:
    u64 amount, valid millisecond timestamp, 32-byte condition, UTF-8
    address, and var_octet_string-encodable sizes (the spec caps the
    length encoding at three bytes, 16 MiB). -/
def IlpPrepare.wf (p : IlpPrepare) : Prop :=
  p.amount < 2 ^ 64 ∧ p.expires_at.valid ∧ p.execution_condition.length = 32 ∧
  validUtf8 p.destination = true ∧ p.destination.length < 2 ^ 24 ∧
  p.data.length < 2 ^ 24 ∧ p.body.length < 2 ^ 24

def IlpFulfill.wf (f : IlpFulfill) : Prop :=
  f.fulfillment.length = 32 ∧ f.data.length < 2 ^ 24 ∧
  (f.fulfillment.take 32 ++ putVarOctetString f.data).length < 2 ^ 24

def IlpReject.wf (r : IlpReject) : Prop :=
  r.code.length = 3 ∧ validUtf8 r.code = true ∧
  validUtf8 r.triggered_by = true ∧ r.triggered_by.length < 2 ^ 24 ∧
  validUtf8 r.message = true ∧ r.message.length < 2 ^ 24 ∧
  r.data.length < 2 ^ 24 ∧
  (r.code ++ (putVarOctetString r.triggered_by ++
    (putVarOctetString r.message ++ putVarOctetString r.data))).length < 2 ^ 24

def IlpPacket.wf : IlpPacket → Prop
  | .prepare p => p.wf
  | .fulfill f => f.wf
  | .reject r => r.wf

instance (p : IlpPrepare) : Decidable p.wf := by
  unfold IlpPrepare.wf; infer_instance

instance (f : IlpFulfill) : Decidable f.wf := by
  unfold IlpFulfill.wf; infer_instance

instance (r : IlpReject) : Decidable r.wf := by
  unfold IlpReject.wf; infer_instance

instance (p : IlpPacket) : Decidable p.wf :=
  match p with
  | .prepare q => inferInstanceAs (Decidable q.wf)
  | .fulfill q => inferInstanceAs (Decidable q.wf)
  | .reject q => inferInstanceAs (Decidable q.wf)

/-- MaxPacketAmountDetails of src/ilp/packet.rs. -/
structure MaxPacketAmountDetails where
  amount_received : Nat
  max_amount : Nat
deriving DecidableEq

/-- The bytes of the ASCII string "F08". -/
def f08Code : ByteBuf := [70, 48, 56]

def parse_f08_error (reject : IlpReject) : Option MaxPacketAmountDetails :=
  if reject.code = f08Code ∧ 16 ≤ reject.data.length then
    match readU64BE reject.data with
    | none => none
    | some (amount_received, rest) =>
      match readU64BE rest with
      | none => none
      | some (max_amount, _) => some ⟨amount_received, max_amount⟩
  else none

/-!
The STREAM connection layer (src/stream/connection.rs). The frame and
stream-packet types live in src/stream/packet.rs, which is not under src/,
so they are modelled from the spec; payload encryption and condition
derivation (src/stream/crypto.rs, also absent) are modelled by their
contracts only, with symbolic ciphertexts and conditions.
-/

/-- Modelled from the spec: error codes carried inside STREAM frames; the
    connection only ever emits NoError. -/
inductive ErrorCode
  | NoError
  | Other (code : Nat)
deriving DecidableEq

/-- Modelled from the spec: `StreamMoney{stream_id, shares}`. The BigUint
    fields are unbounded naturals. -/
structure StreamMoneyFrame where
  stream_id : Nat
  shares : Nat
deriving DecidableEq

/-- Modelled from the spec: `StreamData{stream_id, offset, data}`. -/
structure StreamDataFrame where
  stream_id : Nat
  offset : Nat
  data : List Nat
deriving DecidableEq

/-- Modelled from the spec: `StreamClose{stream_id, code, message}`. -/
structure StreamCloseFrame where
  stream_id : Nat
  code : ErrorCode
  message : String
deriving DecidableEq

/-- Modelled from the spec: `ConnectionClose{code, message}`. -/
structure ConnectionCloseFrame where
  code : ErrorCode
  message : String
deriving DecidableEq

/-- Modelled from the spec: `ConnectionNewAddress{source_account}`. -/
structure ConnectionNewAddressFrame where
  source_account : String
deriving DecidableEq

/-- Modelled from the spec: the frame kinds the connection inspects. -/
inductive Frame
  | StreamMoney (f : StreamMoneyFrame)
  | StreamData (f : StreamDataFrame)
  | StreamClose (f : StreamCloseFrame)
  | ConnectionClose (f : ConnectionCloseFrame)
  | ConnectionNewAddress (f : ConnectionNewAddressFrame)
deriving DecidableEq

/-- Modelled from the spec: a STREAM packet — sequence, mirrored ILP packet
    type, prepare_amount, and an ordered list of frames. -/
structure StreamPacket where
  sequence : Nat
  ilp_packet_type : PacketType
  prepare_amount : Nat
  frames : List Frame
deriving DecidableEq

/-- Modelled from the spec: a symbolic ciphertext. Encryption under a
    shared secret determines the plaintext packet exactly; anything else
    fails to decrypt. -/
inductive CipherText
  | enc (secret : List Nat) (packet : StreamPacket)
  | junk (bytes : List Nat)
deriving DecidableEq

/-- `StreamPacket::to_encrypted` contract. -/
def StreamPacket.toEncrypted (secret : List Nat) (p : StreamPacket) : CipherText :=
  .enc secret p

/-- `StreamPacket::from_encrypted` contract: succeeds exactly on a
    ciphertext produced under the same shared secret. -/
def StreamPacket.fromEncrypted (secret : List Nat) : CipherText → Option StreamPacket
  | .enc s p => if s = secret then some p else none
  | .junk _ => none

/-- Modelled from the spec: a symbolic execution condition — either derived
    from the shared secret and an encrypted payload (generate_condition /
    fulfillment_to_condition), or freshly random (random_condition). -/
inductive Condition
  | derived (secret : List Nat) (data : CipherText)
  | random (seed : Nat)
deriving DecidableEq

/-- Modelled from the spec: a symbolic fulfillment preimage. -/
inductive FulfillmentVal
  | derived (secret : List Nat) (data : CipherText)
deriving DecidableEq

def generate_fulfillment (secret : List Nat) (data : CipherText) : FulfillmentVal :=
  .derived secret data

def fulfillment_to_condition : FulfillmentVal → Condition
  | .derived s d => .derived s d

def generate_condition (secret : List Nat) (data : CipherText) : Condition :=
  .derived secret data

/-- The connection layer's view of an ILP Prepare: its data field is the
    ciphertext it carries and the expiry is in seconds. -/
structure CIlpPrepare where
  amount : Nat
  expires_at : Nat
  execution_condition : Condition
  destination : String
  data : CipherText
deriving DecidableEq

structure CIlpFulfill where
  fulfillment : FulfillmentVal
  data : CipherText
deriving DecidableEq

structure CIlpReject where
  code : String
  message : String
  triggered_by : String
  data : CipherText
deriving DecidableEq

inductive CIlpPacket
  | Prepare (p : CIlpPrepare)
  | Fulfill (f : CIlpFulfill)
  | Reject (r : CIlpReject)
deriving DecidableEq

/-- Modelled from the spec: the money side of a stream
    (data_money_stream.rs is not under src/). -/
structure MoneyStreamState where
  send_max : Nat
  pending : Nat
  total_sent : Nat
  total_received : Nat
  total_delivered : Nat
deriving DecidableEq

def MoneyStreamState.add_to_pending (m : MoneyStreamState) (a : Nat) : MoneyStreamState :=
  {m with pending := m.pending + a}

def MoneyStreamState.subtract_from_pending (m : MoneyStreamState) (a : Nat) : MoneyStreamState :=
  {m with pending := m.pending - a}

def MoneyStreamState.pending_to_sent (m : MoneyStreamState) (a : Nat) : MoneyStreamState :=
  {m with pending := m.pending - a, total_sent := m.total_sent + a}

def MoneyStreamState.add_received (m : MoneyStreamState) (a : Nat) : MoneyStreamState :=
  {m with total_received := m.total_received + a}

def MoneyStreamState.add_delivered (m : MoneyStreamState) (a : Nat) : MoneyStreamState :=
  {m with total_delivered := m.total_delivered + a}

/-- Modelled from the spec: the data side of a stream. `outgoing` is what
    the next `get_outgoing_data` returns (consumed by the call); `incoming`
    records the `push_incoming_data` calls in order. -/
structure DataStreamState where
  outgoing : Option (List Nat × Nat)
  incoming : List (List Nat × Nat)
deriving DecidableEq

/-- Modelled from the spec: `DataMoneyStream`, at the level of the
    operations the connection invokes on it. -/
structure DataMoneyStream where
  id : Nat
  money : MoneyStreamState
  data : DataStreamState
  closing : Bool
  closed : Bool
deriving DecidableEq

def DataMoneyStream.new (id : Nat) : DataMoneyStream :=
  ⟨id, ⟨0, 0, 0, 0, 0⟩, ⟨none, []⟩, false, false⟩

/-- ConnectionState of src/stream/connection.rs. -/
inductive ConnectionState
  | Open
  | Closing
  | CloseSent
  | Closed
deriving DecidableEq

/-- Whether a channel send succeeded (`Ok(())`) or the connection driver
    reports an error (`Err(())`). -/
inductive SendOutcome
  | ok
  | err
deriving DecidableEq

/-- Association-list lookup standing in for the streams HashMap. Iteration
    order of the HashMap is unspecified; the model fixes list order. -/
def lookupStream (id : Nat) : List (Nat × DataMoneyStream) → Option DataMoneyStream
  | [] => none
  | (k, v) :: rest => if k = id then some v else lookupStream id rest

def updateStream (id : Nat) (g : DataMoneyStream → DataMoneyStream) :
    List (Nat × DataMoneyStream) → List (Nat × DataMoneyStream)
  | [] => []
  | (k, v) :: rest => (k, if k = id then g v else v) :: updateStream id g rest

def removeStream (id : Nat) : List (Nat × DataMoneyStream) → List (Nat × DataMoneyStream)
  | [] => []
  | (k, v) :: rest => if k = id then removeStream id rest else (k, v) :: removeStream id rest

def lookupPending (rid : Nat) : List (Nat × Nat × StreamPacket) → Option (Nat × StreamPacket)
  | [] => none
  | (k, a, p) :: rest => if k = rid then some (a, p) else lookupPending rid rest

def removePending (rid : Nat) : List (Nat × Nat × StreamPacket) → List (Nat × Nat × StreamPacket)
  | [] => []
  | (k, a, p) :: rest =>
    if k = rid then removePending rid rest else (k, a, p) :: removePending rid rest

/-- The `Internal` record of src/stream/connection.rs. The two unbounded
    channels are modelled in place: `sent`/`outgoingOpen` are the outgoing
    sink and `incomingQueue`/`incomingClosed` the incoming source. The
    `recv_task` waker and the `connection` back-reference (always `Some`
    after construction) have no observable effect in the model. -/
structure Internal where
  state : ConnectionState
  outgoingOpen : Bool
  sent : List (Nat × CIlpPacket)
  incomingQueue : List (Nat × CIlpPacket)
  incomingClosed : Bool
  shared_secret : List Nat
  source_account : String
  destination_account : String
  next_stream_id : Nat
  next_packet_sequence : Nat
  streams : List (Nat × DataMoneyStream)
  closed_streams : List Nat
  pending_outgoing_packets : List (Nat × Nat × StreamPacket)
  new_streams : List Nat
  frames_to_resend : List Frame
deriving DecidableEq

/-- `UnboundedSender::unbounded_send`: appends when the channel is open,
    errors otherwise. -/
def sendOutgoing (s : Internal) (item : Nat × CIlpPacket) : Internal × SendOutcome :=
  if s.outgoingOpen then ({s with sent := s.sent ++ [item]}, .ok) else (s, .err)

def Internal.set_closing (s : Internal) : Internal :=
  {s with state := .Closing,
          streams := s.streams.map (fun e => (e.1, {e.2 with closing := true}))}

/-- `close_now`: state to Closed, every stream closed, both channel
    endpoints closed, the stream poller woken (a no-op here). -/
def Internal.close_now (s : Internal) : Internal :=
  {s with state := .Closed,
          streams := s.streams.map (fun e => (e.1, {e.2 with closed := true})),
          outgoingOpen := false,
          incomingClosed := true}

/-- `Connection::create_stream`: hand out `next_stream_id` and increment it
    by one (the source has `internal.next_stream_id += 1`). -/
def Internal.create_stream (s : Internal) : Nat × Internal :=
  (s.next_stream_id,
   {s with next_stream_id := s.next_stream_id + 1,
           streams := s.streams ++ [(s.next_stream_id, DataMoneyStream.new s.next_stream_id)]})

/-- `handle_new_stream`: insert an unknown, not-yet-closed stream id. The
    source has a TODO in place of any parity check. -/
def Internal.handle_new_stream (s : Internal) (stream_id : Nat) : Internal :=
  if (lookupStream stream_id s.streams).isNone ∧ ¬ s.closed_streams.contains stream_id then
    {s with streams := s.streams ++ [(stream_id, DataMoneyStream.new stream_id)],
            new_streams := s.new_streams ++ [stream_id]}
  else s

/-- The new-stream loop of `handle_incoming_prepare`: StreamMoney and
    StreamData frames open streams; `stream_id.to_u64().unwrap()` panics on
    an oversized BigUint. -/
def openNewStreams : Internal → List Frame → Option Internal
  | s, [] => some s
  | s, .StreamMoney f :: rest =>
    if f.stream_id < 2 ^ 64 then openNewStreams (s.handle_new_stream f.stream_id) rest else none
  | s, .StreamData f :: rest =>
    if f.stream_id < 2 ^ 64 then openNewStreams (s.handle_new_stream f.stream_id) rest else none
  | s, _ :: rest => openNewStreams s rest

/-- The `total_money_shares` fold: u64 addition of every StreamMoney
    `shares` (`to_u64().unwrap()` panics above u64; the u64 sum wraps). -/
def totalMoneySharesAux : Nat → List Frame → Option Nat
  | acc, [] => some acc
  | acc, .StreamMoney f :: rest =>
    if f.shares < 2 ^ 64 then totalMoneySharesAux ((acc + f.shares) % 2 ^ 64) rest else none
  | acc, _ :: rest => totalMoneySharesAux acc rest

def totalMoneyShares (frames : List Frame) : Option Nat :=
  totalMoneySharesAux 0 frames

/-- The incoming-money loop: for each StreamMoney frame, index the streams
    map (panics when absent) and credit
    `shares * prepare.amount / total_money_shares` in u64 arithmetic
    (the product wraps; division by a zero total panics). -/
def applyMoneyFrames (amount total : Nat) : Internal → List Frame → Option Internal
  | s, [] => some s
  | s, .StreamMoney f :: rest =>
    if f.stream_id < 2 ^ 64 ∧ f.shares < 2 ^ 64 then
      match lookupStream f.stream_id s.streams with
      | none => none
      | some _ =>
        if total = 0 then none
        else
          let streams1 := updateStream f.stream_id
            (fun st => {st with money := st.money.add_received (f.shares * amount % 2 ^ 64 / total)})
            s.streams
          applyMoneyFrames amount total {s with streams := streams1} rest
    else none
  | s, _ :: rest => applyMoneyFrames amount total s rest

/-- `handle_incoming_data`: push each StreamData frame into its stream's
    buffer (map index panics when the stream is absent; `to_u64` /
    `to_usize` unwraps panic on oversized BigUints). -/
def handleIncomingDataFrames : Internal → List Frame → Option Internal
  | s, [] => some s
  | s, .StreamData f :: rest =>
    if f.stream_id < 2 ^ 64 ∧ f.offset < 2 ^ 64 then
      match lookupStream f.stream_id s.streams with
      | none => none
      | some _ =>
        let streams1 := updateStream f.stream_id
          (fun st => {st with data := {st.data with incoming := st.data.incoming ++ [(f.data, f.offset)]}})
          s.streams
        handleIncomingDataFrames {s with streams := streams1} rest
    else none
  | s, _ :: rest => handleIncomingDataFrames s rest

/-- `handle_stream_closes`: mark each StreamClose frame's stream closed
    (map index panics when the stream is absent). -/
def handleStreamCloses : Internal → List Frame → Option Internal
  | s, [] => some s
  | s, .StreamClose f :: rest =>
    if f.stream_id < 2 ^ 64 then
      match lookupStream f.stream_id s.streams with
      | none => none
      | some _ =>
        handleStreamCloses
          {s with streams := updateStream f.stream_id (fun st => {st with closed := true}) s.streams}
          rest
    else none
  | s, _ :: rest => handleStreamCloses s rest

/-- `handle_connection_close`: `close_now` on every ConnectionClose frame. -/
def handleConnectionClose : Internal → List Frame → Internal
  | s, [] => s
  | s, .ConnectionClose _ :: rest => handleConnectionClose s.close_now rest
  | s, _ :: rest => handleConnectionClose s rest

/-- `handle_incoming_prepare`. The `Err` outcome is the propagated error of
    the F02 reject send; sending the final Fulfill/Reject uses
    `unbounded_send(..).unwrap()`, which panics on a closed channel. -/
def Internal.handle_incoming_prepare (s : Internal) (request_id : Nat) (prepare : CIlpPrepare) :
    Option (Internal × SendOutcome) :=
  let fulfillment := generate_fulfillment s.shared_secret prepare.data
  let condition := fulfillment_to_condition fulfillment
  let is_fulfillable := condition == prepare.execution_condition
  match StreamPacket.fromEncrypted s.shared_secret prepare.data with
  | none => some (sendOutgoing s (request_id, CIlpPacket.Reject ⟨"F02", "", "", .junk []⟩))
  | some stream_packet =>
    match openNewStreams s stream_packet.frames with
    | none => none
    | some s1 =>
      match totalMoneyShares stream_packet.frames with
      | none => none
      | some total_money_shares =>
        match (if is_fulfillable then
                 applyMoneyFrames prepare.amount total_money_shares s1 stream_packet.frames
               else some s1) with
        | none => none
        | some s2 =>
          match handleIncomingDataFrames s2 stream_packet.frames with
          | none => none
          | some s3 =>
            match handleStreamCloses s3 stream_packet.frames with
            | none => none
            | some s4 =>
              let s5 := handleConnectionClose s4 stream_packet.frames
              if is_fulfillable then
                if s5.outgoingOpen then
                  some ({s5 with sent := s5.sent ++
                    [(request_id, CIlpPacket.Fulfill ⟨fulfillment,
                      .enc s5.shared_secret ⟨stream_packet.sequence, .IlpFulfill, prepare.amount, []⟩⟩)]},
                    .ok)
                else none
              else
                if s5.outgoingOpen then
                  some ({s5 with sent := s5.sent ++
                    [(request_id, CIlpPacket.Reject ⟨"F99", "", "",
                      .enc s5.shared_secret ⟨stream_packet.sequence, .IlpReject, prepare.amount, []⟩⟩)]},
                    .ok)
                else none

/-- The shared response validation of `handle_fulfill` / `handle_reject`:
    decrypt, then require the original sequence and the expected mirrored
    packet type; otherwise treat the response as absent. -/
def matchResponse (secret : List Nat) (original : StreamPacket) (expected : PacketType)
    (data : CipherText) : Option StreamPacket :=
  match StreamPacket.fromEncrypted secret data with
  | some packet =>
    if packet.sequence ≠ original.sequence then none
    else if packet.ilp_packet_type ≠ expected then none
    else some packet
  | none => none

/-- The money loop of `handle_fulfill`: `pending_to_sent(shares)` then
    `add_delivered(total_delivered * shares / original_amount)` in u64
    arithmetic (map index panics when the stream is absent; division by a
    zero original amount panics). -/
def applyFulfillMoney (total_delivered original_amount : Nat) :
    Internal → List Frame → Option Internal
  | s, [] => some s
  | s, .StreamMoney f :: rest =>
    if f.stream_id < 2 ^ 64 ∧ f.shares < 2 ^ 64 then
      match lookupStream f.stream_id s.streams with
      | none => none
      | some _ =>
        if original_amount = 0 then none
        else
          let amount_delivered := total_delivered * f.shares % 2 ^ 64 / original_amount
          let streams1 := updateStream f.stream_id
            (fun st => {st with money := (st.money.pending_to_sent f.shares).add_delivered amount_delivered})
            s.streams
          applyFulfillMoney total_delivered original_amount {s with streams := streams1} rest
    else none
  | s, _ :: rest => applyFulfillMoney total_delivered original_amount s rest

/-- The money loop of `handle_reject`: `subtract_from_pending(shares)`
    (map index panics when the stream is absent). -/
def applyRejectMoney : Internal → List Frame → Option Internal
  | s, [] => some s
  | s, .StreamMoney f :: rest =>
    if f.stream_id < 2 ^ 64 ∧ f.shares < 2 ^ 64 then
      match lookupStream f.stream_id s.streams with
      | none => none
      | some _ =>
        let streams1 := updateStream f.stream_id
          (fun st => {st with money := st.money.subtract_from_pending f.shares})
          s.streams
        applyRejectMoney {s with streams := streams1} rest
    else none
  | s, _ :: rest => applyRejectMoney s rest

/-- The retransmission transfer of `handle_reject`: pop frames off the end
    of the original packet, keeping StreamData, StreamClose and
    ConnectionClose; called on the reversed frame list. -/
def pushRetransmittable : List Frame → List Frame → List Frame
  | resend, [] => resend
  | resend, .StreamData f :: rest => pushRetransmittable (resend ++ [.StreamData f]) rest
  | resend, .StreamClose f :: rest => pushRetransmittable (resend ++ [.StreamClose f]) rest
  | resend, .ConnectionClose f :: rest => pushRetransmittable (resend ++ [.ConnectionClose f]) rest
  | resend, _ :: rest => pushRetransmittable resend rest

/-- Keeps exactly the frame kinds `handle_reject` retransmits. -/
def isRetransmittableB : Frame → Bool
  | .StreamData _ => true
  | .StreamClose _ => true
  | .ConnectionClose _ => true
  | _ => false

/-- `handle_fulfill`: `pending_outgoing_packets.remove(&request_id).unwrap()`
    panics when the request id is unknown. -/
def Internal.handle_fulfill (s : Internal) (request_id : Nat) (fulfill : CIlpFulfill) :
    Option Internal :=
  match lookupPending request_id s.pending_outgoing_packets with
  | none => none
  | some (original_amount, original_packet) =>
    let s0 := {s with pending_outgoing_packets := removePending request_id s.pending_outgoing_packets}
    let response := matchResponse s0.shared_secret original_packet .IlpFulfill fulfill.data
    let total_delivered := match response with
      | some packet => packet.prepare_amount
      | none => 0
    match applyFulfillMoney total_delivered original_amount s0 original_packet.frames with
    | none => none
    | some s2 =>
      match (match response with
             | some packet => handleIncomingDataFrames s2 packet.frames
             | none => some s2) with
      | none => none
      | some s3 =>
        let s4 := match response with
          | some packet => handleConnectionClose s3 packet.frames
          | none => s3
        let we_sent_close_frame := original_packet.frames.any (fun f => match f with
          | .ConnectionClose _ => true
          | _ => false)
        some (if we_sent_close_frame then s4.close_now else s4)

/-- `handle_reject`: an unknown request id returns early; otherwise release
    pending money, apply a validated response, and transfer retransmittable
    frames when no response was recovered. -/
def Internal.handle_reject (s : Internal) (request_id : Nat) (reject : CIlpReject) :
    Option Internal :=
  match lookupPending request_id s.pending_outgoing_packets with
  | none => some s
  | some (_original_amount, original_packet) =>
    let s0 := {s with pending_outgoing_packets := removePending request_id s.pending_outgoing_packets}
    let response := matchResponse s0.shared_secret original_packet .IlpReject reject.data
    match applyRejectMoney s0 original_packet.frames with
    | none => none
    | some s2 =>
      match (match response with
             | some packet => handleIncomingDataFrames s2 packet.frames
             | none => some s2) with
      | none => none
      | some s3 =>
        let s4 := match response with
          | some packet => handleConnectionClose s3 packet.frames
          | none => s3
        some (match response with
          | some _ => s4
          | none => {s4 with frames_to_resend :=
              pushRetransmittable s4.frames_to_resend original_packet.frames.reverse})

/-- Result of the per-stream collection loop of `try_send`. -/
structure CollectResult where
  streams : List (Nat × DataMoneyStream)
  amount : Nat
  frames : List Frame
  toClose : List Nat
deriving DecidableEq

/-- The stream-iteration loop of `try_send`: reserve
    `send_max - pending - total_sent` as a StreamMoney frame when positive,
    drain the outgoing data buffer into a StreamData frame, and record
    closing streams. -/
def collectOutgoing : List (Nat × DataMoneyStream) → CollectResult
  | [] => ⟨[], 0, [], []⟩
  | (id, st) :: rest =>
    let amount_to_send := st.money.send_max - st.money.pending - st.money.total_sent
    let st1 := if 0 < amount_to_send then {st with money := st.money.add_to_pending amount_to_send} else st
    let moneyFrames : List Frame :=
      if 0 < amount_to_send then [.StreamMoney ⟨st.id, amount_to_send⟩] else []
    let st2 := match st1.data.outgoing with
      | some _ => {st1 with data := {st1.data with outgoing := none}}
      | none => st1
    let dataFrames : List Frame := match st1.data.outgoing with
      | some (bytes, offset) => [.StreamData ⟨st.id, offset, bytes⟩]
      | none => []
    let toClose := if st2.closing then [st.id] else []
    let r := collectOutgoing rest
    ⟨(id, st2) :: r.streams, (if 0 < amount_to_send then amount_to_send else 0) + r.amount,
     moneyFrames ++ dataFrames ++ r.frames, toClose ++ r.toClose⟩

/-- Result of the closing-stream loop of `try_send`. -/
structure ClosePhaseResult where
  streams : List (Nat × DataMoneyStream)
  closedSet : List Nat
  frames : List Frame
deriving DecidableEq

/-- The closing-stream loop of `try_send`: emit a StreamClose frame, mark
    the stream closed, remove it from the map and remember it in
    `closed_streams`. The ids come from the iteration just performed, so the
    map index of the source cannot miss. -/
def closeStreamsPhase : List (Nat × DataMoneyStream) → List Nat → List Frame → List Nat →
    ClosePhaseResult
  | streams, closedSet, frames, [] => ⟨streams, closedSet, frames⟩
  | streams, closedSet, frames, id :: rest =>
    closeStreamsPhase
      (removeStream id (updateStream id (fun st => {st with closed := true}) streams))
      (closedSet ++ [id])
      (frames ++ [.StreamClose ⟨id, .NoError, ""⟩])
      rest

/-- `try_send`. `now` stands for `Utc::now()` in seconds and `request_id`
    for the random u32 of `rand_u32()`. -/
def Internal.try_send (s : Internal) (now request_id : Nat) : Internal × SendOutcome :=
  if s.state = .Closed then (s, .ok)
  else
    let c := collectOutgoing s.streams
    let stateAfter := if s.state = .Closing then ConnectionState.CloseSent else s.state
    let framesWithClose :=
      if s.state = .Closing then c.frames ++ [Frame.ConnectionClose ⟨.NoError, ""⟩] else c.frames
    let z := closeStreamsPhase c.streams s.closed_streams framesWithClose c.toClose
    if z.frames = [] then
      ({s with state := stateAfter, streams := z.streams, closed_streams := z.closedSet}, .ok)
    else
      let stream_packet : StreamPacket := ⟨s.next_packet_sequence, .IlpPrepare, 0, z.frames⟩
      let encrypted := stream_packet.toEncrypted s.shared_secret
      let condition := generate_condition s.shared_secret encrypted
      let prepare : CIlpPrepare := ⟨c.amount, now + 30, condition, s.destination_account, encrypted⟩
      sendOutgoing
        {s with state := stateAfter,
                streams := z.streams,
                closed_streams := z.closedSet,
                next_packet_sequence := s.next_packet_sequence + 1,
                pending_outgoing_packets :=
                  removePending request_id s.pending_outgoing_packets ++
                    [(request_id, c.amount, stream_packet)]}
        (request_id, CIlpPacket.Prepare prepare)

/-- The polling loop of `try_handle_incoming`, recursing over the queued
    items. A handler panic propagates; a handler `Err` stops the loop with
    `Err`; a closed or drained incoming channel returns `Ok`. -/
def thiGo : List (Nat × CIlpPacket) → Internal → Option (Internal × SendOutcome)
  | [], s => some (s, .ok)
  | (request_id, packet) :: rest, s =>
    if s.state = .Closed then some ({s with incomingQueue := (request_id, packet) :: rest}, .ok)
    else
      match packet with
      | .Prepare prepare =>
        match s.handle_incoming_prepare request_id prepare with
        | none => none
        | some (s1, .ok) => thiGo rest s1
        | some (s1, .err) => some ({s1 with incomingQueue := rest}, .err)
      | .Fulfill fulfill =>
        match s.handle_fulfill request_id fulfill with
        | none => none
        | some s1 => thiGo rest s1
      | .Reject reject =>
        match s.handle_reject request_id reject with
        | none => none
        | some s1 => thiGo rest s1

def Internal.try_handle_incoming (s : Internal) : Option (Internal × SendOutcome) :=
  thiGo s.incomingQueue {s with incomingQueue := []}

/-- `send_handshake` followed by `send_unfulfillable_prepare`: one Prepare
    with amount 0, a random condition, and a STREAM packet holding a single
    ConnectionNewAddress frame; the request id is never added to
    `pending_outgoing_packets`. The `unbounded_send(..).unwrap()` panic on
    a closed channel is the `none`. -/
def Internal.send_handshake (s : Internal) (request_id conditionSeed now : Nat) :
    Option Internal :=
  let sequence := s.next_packet_sequence
  let s1 := {s with next_packet_sequence := s.next_packet_sequence + 1}
  let packet : StreamPacket :=
    ⟨sequence, .IlpPrepare, 0, [.ConnectionNewAddress ⟨s1.source_account⟩]⟩
  let prepare : CIlpPrepare :=
    ⟨0, now + 30, .random conditionSeed, s1.destination_account,
     packet.toEncrypted s1.shared_secret⟩
  if s1.outgoingOpen then some {s1 with sent := s1.sent ++ [(request_id, .Prepare prepare)]}
  else none

/-- `Connection::new`: fresh state with `next_stream_id` 2 on a server and
    1 on a client; a client immediately sends the handshake. -/
def connectionNew (shared_secret : List Nat) (source_account destination_account : String)
    (is_server : Bool) (handshakeRequestId conditionSeed now : Nat) : Option Internal :=
  let internal : Internal :=
    { state := .Open
      outgoingOpen := true
      sent := []
      incomingQueue := []
      incomingClosed := false
      shared_secret := shared_secret
      source_account := source_account
      destination_account := destination_account
      next_stream_id := if is_server then 2 else 1
      next_packet_sequence := 1
      streams := []
      closed_streams := []
      pending_outgoing_packets := []
      new_streams := []
      frames_to_resend := [] }
  if is_server then some internal
  else internal.send_handshake handshakeRequestId conditionSeed now

/-! Concrete values used by witnesses and counterexamples. -/

def ssEx : List Nat := [7, 7]

def baseInternal : Internal :=
  ⟨.Open, true, [], [], false, ssEx, "example.alice", "example.bob", 1, 1, [], [], [], [], []⟩

def dmsWithSendMax (id send_max : Nat) : DataMoneyStream :=
  ⟨id, ⟨send_max, 0, 0, 0, 0⟩, ⟨none, []⟩, false, false⟩

def prepEx : IlpPrepare :=
  ⟨107, ⟨2018, 6, 7, 20, 48, 42, 483⟩, List.replicate 32 17,
   [101, 120, 97, 109, 112, 108, 101, 46, 97, 108, 105, 99, 101], [1, 2, 3]⟩

def pEx : IlpPacket := .prepare prepEx

def f08RejectEx : IlpReject := ⟨f08Code, [], [], putU64BE 100 ++ putU64BE 1000⟩

def c2SendState : Internal :=
  {baseInternal with streams := [(1, dmsWithSendMax 1 5)],
                     frames_to_resend := [.StreamData ⟨9, 0, [7]⟩]}

def c2OrigPacket : StreamPacket :=
  ⟨1, .IlpPrepare, 0,
   [.StreamMoney ⟨1, 3⟩, .StreamData ⟨1, 0, [5]⟩, .StreamClose ⟨1, .NoError, ""⟩]⟩

def c2RejState : Internal :=
  {baseInternal with streams := [(1, ⟨1, ⟨3, 3, 0, 0, 0⟩, ⟨none, []⟩, false, false⟩)],
                     pending_outgoing_packets := [(7, 3, c2OrigPacket)]}

def c3Fulfill : CIlpFulfill := ⟨.derived ssEx (.junk []), .junk []⟩

def c3Reject : CIlpReject := ⟨"F99", "", "", .junk []⟩

def c5Packet : StreamPacket := ⟨2, .IlpPrepare, 0, [.StreamMoney ⟨1, 5⟩, .StreamMoney ⟨3, 10⟩]⟩

def c5State : Internal :=
  {baseInternal with streams := [(1, DataMoneyStream.new 1), (3, DataMoneyStream.new 3)]}

def c5Prepare : CIlpPrepare :=
  ⟨100, 0, .derived ssEx (.enc ssEx c5Packet), "example.bob", .enc ssEx c5Packet⟩

def c9QueueState : Internal := {baseInternal with incomingClosed := true}

def c9SendState : Internal :=
  {baseInternal with outgoingOpen := false, streams := [(1, dmsWithSendMax 1 5)]}

def c10State : Internal := {baseInternal with closed_streams := [4]}

def c10PacketA : StreamPacket := ⟨2, .IlpPrepare, 0, [.StreamMoney ⟨4, 5⟩]⟩

def c10PrepareA : CIlpPrepare :=
  ⟨10, 0, .derived ssEx (.enc ssEx c10PacketA), "example.bob", .enc ssEx c10PacketA⟩

def c10PacketB : StreamPacket := ⟨3, .IlpPrepare, 0, [.StreamClose ⟨9, .NoError, ""⟩]⟩

def c10PrepareB : CIlpPrepare :=
  ⟨0, 0, .derived ssEx (.enc ssEx c10PacketB), "example.bob", .enc ssEx c10PacketB⟩

/-! Derived observations used in claim statements. -/

def moneyFramesOf (fs : List Frame) : List StreamMoneyFrame :=
  fs.filterMap (fun f => match f with
    | .StreamMoney m => some m
    | _ => none)

def sharesSumOf (fs : List Frame) : Nat := ((moneyFramesOf fs).map (fun m => m.shares)).sum

def dataFramesOf (fs : List Frame) : List StreamDataFrame :=
  fs.filterMap (fun f => match f with
    | .StreamData d => some d
    | _ => none)

def closeFramesOf (fs : List Frame) : List StreamCloseFrame :=
  fs.filterMap (fun f => match f with
    | .StreamClose c => some c
    | _ => none)

def isConnCloseB : Frame → Bool
  | .ConnectionClose _ => true
  | _ => false

def receivedOf (s : Internal) (id : Nat) : Option Nat :=
  (lookupStream id s.streams).map (fun st => st.money.total_received)

def totalReceivedL (m : List (Nat × DataMoneyStream)) : Nat :=
  (m.map (fun e => e.2.money.total_received)).sum

def totalReceivedOf (s : Internal) : Nat := totalReceivedL s.streams

def streamKeys (m : List (Nat × DataMoneyStream)) : List Nat := m.map (fun e => e.1)

/-- The preconditions under which `handle_incoming_prepare` reaches its
    response without panicking: every referenced stream id is a key of the
    streams map, the BigUint fields fit in u64, and no ConnectionClose
    frame closes the outgoing channel before the response send. -/
def framePreOk (s : Internal) : Frame → Bool
  | .StreamMoney m =>
    decide (m.stream_id < 2 ^ 64) && decide (m.shares < 2 ^ 64) &&
      (lookupStream m.stream_id s.streams).isSome
  | .StreamData d =>
    decide (d.stream_id < 2 ^ 64) && decide (d.offset < 2 ^ 64) &&
      (lookupStream d.stream_id s.streams).isSome
  | .StreamClose c =>
    decide (c.stream_id < 2 ^ 64) && (lookupStream c.stream_id s.streams).isSome
  | .ConnectionClose _ => false
  | .ConnectionNewAddress _ => true

/-- The sum of the u64 credits `handle_incoming_prepare` gives stream `id`
    across the StreamMoney frames of a packet. -/
def creditSumOf (fs : List Frame) (id amount total : Nat) : Nat :=
  (((moneyFramesOf fs).filter (fun m => m.stream_id == id)).map
    (fun m => m.shares * amount % 2 ^ 64 / total)).sum

/-! Support lemmas: fixed-width big-endian digits. -/

theorem padBase_length (base w n : Nat) : (padBase base w n).length = w := by
  induction w generalizing n with
  | zero => simp [padBase]
  | succ w ih => simp [padBase, ih]

theorem readBase_append (base : Nat) (l : List Nat) (x : Nat) :
    readBase base (l ++ [x]) = readBase base l * base + x := by
  simp [readBase, List.foldl_append]

theorem readBase_padBase (base w n : Nat) (hb : 0 < base) (h : n < base ^ w) :
    readBase base (padBase base w n) = n := by
  induction w generalizing n with
  | zero =>
    simp only [pow_zero, Nat.lt_one_iff] at h
    simp [padBase, readBase, h]
  | succ w ih =>
    have hdiv : n / base < base ^ w := by
      rw [Nat.div_lt_iff_lt_mul hb]
      calc n < base ^ (w + 1) := h
        _ = base ^ w * base := by rw [pow_succ]
    rw [padBase, readBase_append, ih (n / base) hdiv, Nat.mul_comm, Nat.div_add_mod]

theorem readExact_append (xs rest : List Nat) :
    readExact xs.length (xs ++ rest) = some (xs, rest) := by
  induction xs with
  | nil => simp [readExact]
  | cons b xs ih => simp [readExact, ih]

theorem readExact_of_len (n : Nat) (xs rest : List Nat) (h : xs.length = n) :
    readExact n (xs ++ rest) = some (xs, rest) := by
  subst h; exact readExact_append xs rest

theorem readExact_take_drop (n : Nat) (l : List Nat) (h : n ≤ l.length) :
    readExact n l = some (l.take n, l.drop n) := by
  induction n generalizing l with
  | zero => simp [readExact]
  | succ n ih =>
    cases l with
    | nil => simp at h
    | cons b rest =>
      have h' : n ≤ rest.length := by simpa using h
      simp [readExact, ih rest h']

theorem readU64BE_append (n : Nat) (rest : List Nat) (h : n < 2 ^ 64) :
    readU64BE (putU64BE n ++ rest) = some (n, rest) := by
  unfold readU64BE putU64BE
  rw [readExact_of_len 8 _ _ (padBase_length 256 8 n)]
  show some (readBase 256 (padBase 256 8 n), rest) = some (n, rest)
  rw [readBase_padBase 256 8 n (by norm_num) (by norm_num at h ⊢; omega)]

theorem readU64BE_take_drop (l : List Nat) (h : 8 ≤ l.length) :
    readU64BE l = some (readBase 256 (l.take 8), l.drop 8) := by
  unfold readU64BE
  rw [readExact_take_drop 8 l h]

theorem readVar_put (s rest : List Nat) (h : s.length < 2 ^ 24) :
    readVarOctetString (putVarOctetString s ++ rest) = some (s, rest) := by
  unfold putVarOctetString lengthHeader
  by_cases h1 : s.length < 128
  · rw [if_pos h1]
    simp only [List.cons_append, List.nil_append, readVarOctetString, readU8]
    rw [if_pos h1, readExact_of_len s.length s rest rfl]
  · rw [if_neg h1]
    by_cases h2 : s.length < 256
    · rw [if_pos h2]
      simp only [List.cons_append, List.nil_append, readVarOctetString, readU8]
      norm_num
      have e1 : readExact 1 (s.length :: (s ++ rest)) = some ([s.length], s ++ rest) :=
        readExact_of_len 1 [s.length] (s ++ rest) rfl
      rw [e1]
      show readExact (readBase 256 [s.length]) (s ++ rest) = some (s, rest)
      have e2 : readBase 256 [s.length] = s.length := by simp [readBase]
      rw [e2]
      exact readExact_of_len s.length s rest rfl
    · rw [if_neg h2]
      by_cases h3 : s.length < 65536
      · rw [if_pos h3]
        simp only [List.cons_append, readVarOctetString, readU8, List.append_assoc]
        norm_num
        rw [readExact_of_len 2 _ _ (padBase_length 256 2 s.length)]
        show readExact (readBase 256 (padBase 256 2 s.length)) (s ++ rest) = some (s, rest)
        rw [readBase_padBase 256 2 s.length (by norm_num) (by norm_num; omega)]
        exact readExact_of_len s.length s rest rfl
      · rw [if_neg h3]
        simp only [List.cons_append, readVarOctetString, readU8, List.append_assoc]
        norm_num
        rw [readExact_of_len 3 _ _ (padBase_length 256 3 s.length)]
        show readExact (readBase 256 (padBase 256 3 s.length)) (s ++ rest) = some (s, rest)
        rw [readBase_padBase 256 3 s.length (by norm_num) (by norm_num at h ⊢; omega)]
        exact readExact_of_len s.length s rest rfl

theorem readVar_put_nil (s : List Nat) (h : s.length < 2 ^ 24) :
    readVarOctetString (putVarOctetString s) = some (s, []) := by
  have := readVar_put s [] h
  simpa using this

/-! Support lemmas: the timestamp format. -/

theorem formatTimestamp_length (d : DateTimeMs) : (formatTimestamp d).length = 17 := rfl

theorem formatTimestamp_all_lt128 (d : DateTimeMs) : ∀ x ∈ formatTimestamp d, x < 128 := by
  intro x hx
  simp only [formatTimestamp, pad2, pad3, pad4, List.cons_append, List.nil_append,
    List.mem_cons, List.not_mem_nil, or_false] at hx
  rcases hx with rfl | rfl | rfl | rfl | rfl | rfl | rfl | rfl | rfl | rfl | rfl | rfl | rfl |
    rfl | rfl | rfl | rfl <;> omega

theorem utf8Aux_lt128 (l : List Nat) (h : ∀ x ∈ l, x < 128) :
    utf8Aux l 0 0x80 0xBF = true := by
  induction l with
  | nil => rfl
  | cons b rest ih =>
    have hb : b < 128 := h b (List.mem_cons_self b rest)
    rw [utf8Aux]
    rw [if_pos hb]
    exact ih (fun x hx => h x (List.mem_cons_of_mem b hx))

theorem validUtf8_of_lt128 (l : List Nat) (h : ∀ x ∈ l, x < 128) : validUtf8 l = true :=
  utf8Aux_lt128 l h

theorem validUtf8_formatTimestamp (d : DateTimeMs) : validUtf8 (formatTimestamp d) = true :=
  validUtf8_of_lt128 _ (formatTimestamp_all_lt128 d)

theorem parseTimestamp_cons (y1 y2 y3 y4 o1 o2 d1 d2 h1 h2 m1 m2 s1 s2 f1 f2 f3 : Nat) :
    parseTimestamp [y1, y2, y3, y4, o1, o2, d1, d2, h1, h2, m1, m2, s1, s2, f1, f2, f3] =
      parseDigits y1 y2 y3 y4 o1 o2 d1 d2 h1 h2 m1 m2 s1 s2 f1 f2 f3 := rfl

theorem parseTimestamp_format (d : DateTimeMs) (h : d.valid) :
    parseTimestamp (formatTimestamp d) = some d := by
  obtain ⟨y, mo, dy, hr, mi, se, ms⟩ := d
  unfold DateTimeMs.valid at h
  dsimp only at h
  obtain ⟨hy, hm1, hm2, hd1, hd2, hh, hmi, hse, hms⟩ := h
  have hfmt : formatTimestamp ⟨y, mo, dy, hr, mi, se, ms⟩ =
      [y / 1000 % 10 + 48, y / 100 % 10 + 48, y / 10 % 10 + 48, y % 10 + 48,
       mo / 10 % 10 + 48, mo % 10 + 48, dy / 10 % 10 + 48, dy % 10 + 48,
       hr / 10 % 10 + 48, hr % 10 + 48, mi / 10 % 10 + 48, mi % 10 + 48,
       se / 10 % 10 + 48, se % 10 + 48, ms / 100 % 10 + 48, ms / 10 % 10 + 48,
       ms % 10 + 48] := rfl
  rw [hfmt, parseTimestamp_cons]
  unfold parseDigits
  rw [if_pos (by omega)]
  have hdt : (⟨dec4 (y / 1000 % 10 + 48) (y / 100 % 10 + 48) (y / 10 % 10 + 48) (y % 10 + 48),
      dec2 (mo / 10 % 10 + 48) (mo % 10 + 48), dec2 (dy / 10 % 10 + 48) (dy % 10 + 48),
      dec2 (hr / 10 % 10 + 48) (hr % 10 + 48), dec2 (mi / 10 % 10 + 48) (mi % 10 + 48),
      dec2 (se / 10 % 10 + 48) (se % 10 + 48),
      dec3 (ms / 100 % 10 + 48) (ms / 10 % 10 + 48) (ms % 10 + 48)⟩ : DateTimeMs) =
      ⟨y, mo, dy, hr, mi, se, ms⟩ := by
    have hdm : daysInMonth y mo ≤ 31 := by
      unfold daysInMonth
      split <;> split <;> omega
    simp only [dec4, dec3, dec2, DateTimeMs.mk.injEq]
    omega
  rw [hdt]
  rw [if_pos (show DateTimeMs.valid ⟨y, mo, dy, hr, mi, se, ms⟩ from
    ⟨hy, hm1, hm2, hd1, hd2, hh, hmi, hse, hms⟩)]

/-! Support lemmas: the packet codec round trip. -/

theorem deserialize_serialize (t : PacketType) (contents : ByteBuf)
    (h : contents.length < 2 ^ 24) :
    deserialize_envelope (serialize_envelope t contents) =
      .ok (PacketType.fromByte t.toByte, contents) := by
  unfold serialize_envelope deserialize_envelope
  simp only [readU8]
  rw [readVar_put_nil contents h]

theorem prepare_from_to (p : IlpPrepare) (h : p.wf) :
    IlpPrepare.from_bytes p.to_bytes = .ok p := by
  obtain ⟨hamt, hdt, hcond, hdest, hdlen, hdatalen, hbody⟩ := h
  have eu64 : ∀ rest, readU64BE (putU64BE p.amount ++ rest) = some (p.amount, rest) :=
    fun rest => readU64BE_append _ rest hamt
  have e17 : ∀ rest, readExact 17 (formatTimestamp p.expires_at ++ rest) =
      some (formatTimestamp p.expires_at, rest) :=
    fun rest => readExact_of_len 17 _ rest (formatTimestamp_length _)
  have e32 : ∀ rest, readExact 32 (p.execution_condition ++ rest) =
      some (p.execution_condition, rest) :=
    fun rest => readExact_of_len 32 _ rest hcond
  have edest : ∀ rest, readVarOctetString (putVarOctetString p.destination ++ rest) =
      some (p.destination, rest) := fun rest => readVar_put _ rest hdlen
  have edata : readVarOctetString (putVarOctetString p.data) = some (p.data, []) :=
    readVar_put_nil _ hdatalen
  unfold IlpPrepare.to_bytes IlpPrepare.from_bytes
  rw [deserialize_serialize _ _ hbody]
  unfold IlpPrepare.body
  simp [PacketType.toByte, PacketType.fromByte, eu64, e17, validUtf8_formatTimestamp,
    parseTimestamp_format _ hdt, e32, edest, hdest, edata]

theorem fulfill_to_bytes_eq (f : IlpFulfill) (h32 : f.fulfillment.length = 32) :
    f.to_bytes = some (serialize_envelope .IlpFulfill
      (f.fulfillment ++ putVarOctetString f.data)) := by
  unfold IlpFulfill.to_bytes
  rw [if_neg (by omega)]
  have htk : f.fulfillment.take 32 = f.fulfillment := by
    rw [← h32, List.take_length]
  rw [htk]

theorem fulfill_from_to (f : IlpFulfill) (h : f.wf) :
    ∃ b, f.to_bytes = some b ∧ IlpFulfill.from_bytes b = .ok f := by
  obtain ⟨h32, hdlen, hbody⟩ := h
  have htk : f.fulfillment.take 32 = f.fulfillment := by rw [← h32, List.take_length]
  rw [htk] at hbody
  have e32 : ∀ rest, readExact 32 (f.fulfillment ++ rest) = some (f.fulfillment, rest) :=
    fun rest => readExact_of_len 32 _ rest h32
  have edata : readVarOctetString (putVarOctetString f.data) = some (f.data, []) :=
    readVar_put_nil _ hdlen
  refine ⟨_, fulfill_to_bytes_eq f h32, ?_⟩
  unfold IlpFulfill.from_bytes
  rw [deserialize_serialize _ _ hbody]
  simp [PacketType.toByte, PacketType.fromByte, e32, edata]

theorem reject_from_to (r : IlpReject) (h : r.wf) :
    IlpReject.from_bytes r.to_bytes = .ok r := by
  obtain ⟨h3, hcode, htutf, htlen, hmutf, hmlen, hdatalen, hbody⟩ := h
  have e3 : ∀ rest, readExact 3 (r.code ++ rest) = some (r.code, rest) :=
    fun rest => readExact_of_len 3 _ rest h3
  have etrig : ∀ rest, readVarOctetString (putVarOctetString r.triggered_by ++ rest) =
      some (r.triggered_by, rest) := fun rest => readVar_put _ rest htlen
  have emsg : ∀ rest, readVarOctetString (putVarOctetString r.message ++ rest) =
      some (r.message, rest) := fun rest => readVar_put _ rest hmlen
  have edata : readVarOctetString (putVarOctetString r.data) = some (r.data, []) :=
    readVar_put_nil _ hdatalen
  unfold IlpReject.to_bytes IlpReject.from_bytes
  rw [deserialize_serialize _ _ hbody]
  simp [PacketType.toByte, PacketType.fromByte, e3, hcode, etrig, htutf, emsg, hmutf, edata]

/-- Claim C1: codec round trip — for every well-formed IlpPacket (Prepare,
    Fulfill, or Reject with millisecond-precision expiry, 32-byte
    condition/fulfillment, UTF-8 string fields, and var_octet_string
    encodable sizes), the bytes produced by encoding decode back to exactly
    the same packet. -/
theorem c1_codec_roundtrip (p : IlpPacket) (h : p.wf) :
    ∃ bytes, p.to_bytes = some bytes ∧ IlpPacket.from_bytes bytes = some (.ok p) := by
  cases p with
  | prepare q =>
    refine ⟨q.to_bytes, rfl, ?_⟩
    have hq := prepare_from_to q h
    show IlpPacket.from_bytes (12 :: putVarOctetString q.body) = some (.ok (.prepare q))
    simp only [IlpPacket.from_bytes]
    have h12 : PacketType.fromByte 12 = .IlpPrepare := by decide
    rw [h12]
    have : IlpPrepare.from_bytes (12 :: putVarOctetString q.body) = .ok q := hq
    rw [this]
    rfl
  | fulfill q =>
    obtain ⟨b, hb, hfrom⟩ := fulfill_from_to q h
    refine ⟨b, hb, ?_⟩
    have hbeq : b = 13 :: putVarOctetString (q.fulfillment ++ putVarOctetString q.data) := by
      have h32 : q.fulfillment.length = 32 := h.1
      rw [fulfill_to_bytes_eq q h32] at hb
      exact (Option.some.injEq _ _).mp hb.symm
    subst hbeq
    simp only [IlpPacket.from_bytes]
    have h13 : PacketType.fromByte 13 = .IlpFulfill := by decide
    rw [h13, hfrom]
    rfl
  | reject q =>
    refine ⟨q.to_bytes, rfl, ?_⟩
    have hq := reject_from_to q h
    show IlpPacket.from_bytes (14 :: _) = some (.ok (.reject q))
    simp only [IlpPacket.from_bytes]
    have h14 : PacketType.fromByte 14 = .IlpReject := by decide
    rw [h14]
    rw [show IlpReject.from_bytes (14 :: putVarOctetString (q.code ++
      (putVarOctetString q.triggered_by ++ (putVarOctetString q.message ++
        putVarOctetString q.data)))) = .ok q from hq]
    rfl

/-- Witness for C1 at a concrete Prepare packet. -/
theorem c1_codec_roundtrip_witness :
    IlpPacket.wf pEx ∧
      ∃ bytes, pEx.to_bytes = some bytes ∧ IlpPacket.from_bytes bytes = some (.ok pEx) :=
  ⟨by decide, c1_codec_roundtrip pEx (by decide)⟩

/-- Claim C6: parse_f08_error returns Some exactly when the code is "F08"
    and the data holds at least 16 bytes, in which case the fields are the
    first two big-endian u64s of the data and trailing bytes are ignored. -/
theorem c6_parse_f08 (r : IlpReject) :
    ((parse_f08_error r).isSome = true ↔ r.code = f08Code ∧ 16 ≤ r.data.length) ∧
      ∀ d, parse_f08_error r = some d →
        d.amount_received = readBase 256 (r.data.take 8) ∧
        d.max_amount = readBase 256 ((r.data.drop 8).take 8) := by
  by_cases hc : r.code = f08Code ∧ 16 ≤ r.data.length
  · have h8 : 8 ≤ r.data.length := by omega
    have h8' : 8 ≤ (r.data.drop 8).length := by
      rw [List.length_drop]; omega
    have hparse : parse_f08_error r =
        some ⟨readBase 256 (r.data.take 8), readBase 256 ((r.data.drop 8).take 8)⟩ := by
      unfold parse_f08_error
      rw [if_pos hc]
      simp [readU64BE_take_drop r.data h8, readU64BE_take_drop _ h8']
    constructor
    · rw [hparse]; simpa using hc
    · intro d hd
      rw [hparse] at hd
      obtain rfl := (Option.some.injEq _ _).mp hd.symm
      exact ⟨rfl, rfl⟩
  · have hparse : parse_f08_error r = none := by
      unfold parse_f08_error
      rw [if_neg hc]
    constructor
    · rw [hparse]; simpa using hc
    · intro d hd
      rw [hparse] at hd
      cases hd

/-- Witness for C6 at a concrete F08 reject. -/
theorem c6_parse_f08_witness : (parse_f08_error f08RejectEx).isSome = true :=
  ((c6_parse_f08 f08RejectEx).1).mpr (by decide)

/-- Claim C7 (code_bug side): decoding is total for every nonempty input,
    but `IlpPacket::from_bytes` indexes `bytes[0]` and panics on the empty
    input instead of returning a ParseError. -/
theorem c7_from_bytes_totality :
    IlpPacket.from_bytes [] = none ∧
      ∀ t rest, (IlpPacket.from_bytes (t :: rest)).isSome = true :=
  ⟨rfl, fun _ _ => rfl⟩

/-! Support lemmas: the streams association list. -/

theorem lookupStream_update (id id' : Nat) (g : DataMoneyStream → DataMoneyStream)
    (m : List (Nat × DataMoneyStream)) :
    lookupStream id (updateStream id' g m) =
      if id = id' then (lookupStream id m).map g else lookupStream id m := by
  induction m with
  | nil => simp [lookupStream, updateStream]
  | cons e tail ih =>
    obtain ⟨k, v⟩ := e
    simp only [updateStream, lookupStream]
    by_cases hk : k = id
    · subst hk
      by_cases hk' : k = id' <;> simp [hk']
    · simp [hk, ih]

theorem lookupStream_update_isSome (id id' : Nat) (g : DataMoneyStream → DataMoneyStream)
    (m : List (Nat × DataMoneyStream)) :
    (lookupStream id (updateStream id' g m)).isSome = (lookupStream id m).isSome := by
  rw [lookupStream_update]
  split <;> simp [Option.isSome_map]

theorem streamKeys_update (id : Nat) (g : DataMoneyStream → DataMoneyStream)
    (m : List (Nat × DataMoneyStream)) :
    streamKeys (updateStream id g m) = streamKeys m := by
  induction m with
  | nil => rfl
  | cons e tail ih =>
    obtain ⟨k, v⟩ := e
    simpa [updateStream, streamKeys] using ih

theorem lookupStream_isSome_iff (id : Nat) (m : List (Nat × DataMoneyStream)) :
    (lookupStream id m).isSome = true ↔ id ∈ streamKeys m := by
  induction m with
  | nil => simp [lookupStream, streamKeys]
  | cons e tail ih =>
    obtain ⟨k, v⟩ := e
    by_cases hk : k = id <;> simp [lookupStream, streamKeys, hk, ih]
    omega

theorem updateStream_not_mem (id : Nat) (g : DataMoneyStream → DataMoneyStream)
    (m : List (Nat × DataMoneyStream)) (h : id ∉ streamKeys m) :
    updateStream id g m = m := by
  induction m with
  | nil => rfl
  | cons e tail ih =>
    obtain ⟨k, v⟩ := e
    simp only [streamKeys, List.map_cons, List.mem_cons] at h
    push_neg at h
    have hne : ¬ k = id := fun hk => h.1 hk.symm
    have htail : updateStream id g tail = tail := ih (by simpa [streamKeys] using h.2)
    simp [updateStream, hne, htail]

theorem totalReceivedL_update_add (id c : Nat) (m : List (Nat × DataMoneyStream))
    (hsome : (lookupStream id m).isSome = true) (hnodup : (streamKeys m).Nodup) :
    totalReceivedL (updateStream id
      (fun st => {st with money := st.money.add_received c}) m) =
      totalReceivedL m + c := by
  induction m with
  | nil => simp [lookupStream] at hsome
  | cons e tail ih =>
    obtain ⟨k, v⟩ := e
    simp only [streamKeys, List.map_cons, List.nodup_cons] at hnodup
    by_cases hk : k = id
    · subst hk
      have htail : updateStream k (fun st => {st with money := st.money.add_received c}) tail =
          tail :=
        updateStream_not_mem k _ tail (by simpa [streamKeys] using hnodup.1)
      simp only [updateStream]
      rw [htail]
      simp [totalReceivedL, MoneyStreamState.add_received]
      omega
    · have hsome' : (lookupStream id tail).isSome = true := by
        simpa [lookupStream, hk] using hsome
      have := ih hsome' hnodup.2
      simp only [updateStream, if_neg hk, totalReceivedL, List.map_cons, List.sum_cons]
      simp only [totalReceivedL] at this
      omega

theorem totalReceivedL_update_preserve (id : Nat) (g : DataMoneyStream → DataMoneyStream)
    (m : List (Nat × DataMoneyStream))
    (hg : ∀ st, (g st).money.total_received = st.money.total_received) :
    totalReceivedL (updateStream id g m) = totalReceivedL m := by
  induction m with
  | nil => rfl
  | cons e tail ih =>
    obtain ⟨k, v⟩ := e
    by_cases hk : k = id <;>
      simp [updateStream, totalReceivedL, hk, hg] <;>
      simpa [totalReceivedL] using ih

theorem moneyFramesOf_money (f : StreamMoneyFrame) (rest : List Frame) :
    moneyFramesOf (Frame.StreamMoney f :: rest) = f :: moneyFramesOf rest := rfl

theorem moneyFramesOf_data (f : StreamDataFrame) (rest : List Frame) :
    moneyFramesOf (Frame.StreamData f :: rest) = moneyFramesOf rest := rfl

theorem moneyFramesOf_closeFrame (f : StreamCloseFrame) (rest : List Frame) :
    moneyFramesOf (Frame.StreamClose f :: rest) = moneyFramesOf rest := rfl

theorem moneyFramesOf_connClose (f : ConnectionCloseFrame) (rest : List Frame) :
    moneyFramesOf (Frame.ConnectionClose f :: rest) = moneyFramesOf rest := rfl

theorem moneyFramesOf_newAddr (f : ConnectionNewAddressFrame) (rest : List Frame) :
    moneyFramesOf (Frame.ConnectionNewAddress f :: rest) = moneyFramesOf rest := rfl

/-! Support lemmas: the retransmission transfer. -/

theorem pushRetransmittable_eq (resend l : List Frame) :
    pushRetransmittable resend l = resend ++ l.filter isRetransmittableB := by
  induction l generalizing resend with
  | nil => simp [pushRetransmittable]
  | cons f rest ih =>
    cases f <;> simp [pushRetransmittable, isRetransmittableB, List.filter_cons, ih]

/-! Support lemmas: the money-release loop of handle_reject. -/

theorem applyRejectMoney_ok (fs : List Frame) (s : Internal)
    (hok : ∀ m ∈ moneyFramesOf fs, m.stream_id < 2 ^ 64 ∧ m.shares < 2 ^ 64 ∧
      (lookupStream m.stream_id s.streams).isSome = true) :
    ∃ t, applyRejectMoney s fs = some t ∧ t = {s with streams := t.streams} := by
  induction fs generalizing s with
  | nil => exact ⟨s, rfl, rfl⟩
  | cons f rest ih =>
    cases f with
    | StreamMoney f =>
      obtain ⟨hid, hsh, hsome⟩ :=
        hok f (by rw [moneyFramesOf_money]; exact List.mem_cons_self f _)
      obtain ⟨st, hst⟩ := Option.isSome_iff_exists.mp hsome
      have hok' : ∀ m ∈ moneyFramesOf rest, m.stream_id < 2 ^ 64 ∧ m.shares < 2 ^ 64 ∧
          (lookupStream m.stream_id (updateStream f.stream_id (fun st => {st with money := st.money.subtract_from_pending f.shares}) s.streams)).isSome = true := by
        intro m hm
        obtain ⟨h1, h2, h3⟩ :=
          hok m (by rw [moneyFramesOf_money]; exact List.mem_cons_of_mem f hm)
        exact ⟨h1, h2, by rw [lookupStream_update_isSome]; exact h3⟩
      obtain ⟨t, ht, hfields⟩ := ih {s with streams := updateStream f.stream_id (fun st => {st with money := st.money.subtract_from_pending f.shares}) s.streams} hok'
      refine ⟨t, ?_, hfields.trans rfl⟩
      simp only [applyRejectMoney]
      rw [if_pos ⟨hid, hsh⟩, hst]
      exact ht
    | StreamData f =>
      obtain ⟨t, ht, hfields⟩ :=
        ih s (fun m hm => hok m (by rw [moneyFramesOf_data]; exact hm))
      exact ⟨t, ht, hfields⟩
    | StreamClose f =>
      obtain ⟨t, ht, hfields⟩ :=
        ih s (fun m hm => hok m (by rw [moneyFramesOf_closeFrame]; exact hm))
      exact ⟨t, ht, hfields⟩
    | ConnectionClose f =>
      obtain ⟨t, ht, hfields⟩ :=
        ih s (fun m hm => hok m (by rw [moneyFramesOf_connClose]; exact hm))
      exact ⟨t, ht, hfields⟩
    | ConnectionNewAddress f =>
      obtain ⟨t, ht, hfields⟩ :=
        ih s (fun m hm => hok m (by rw [moneyFramesOf_newAddr]; exact hm))
      exact ⟨t, ht, hfields⟩

/-- Claim C3 (code_bug side): on an unknown request id, `handle_reject`
    returns with the state untouched, but `handle_fulfill` unwraps the
    missing pending entry and panics. -/
theorem c3_unknown_request_id :
    Internal.handle_fulfill baseInternal 7 c3Fulfill = none ∧
      Internal.handle_reject baseInternal 7 c3Reject = some baseInternal := by
  constructor <;> rfl

/-- Claim C4 (code_bug side): `create_stream` increments `next_stream_id`
    by one, so a client (starting at 1) allocates 1, 2, 3, … — id 2 has
    server parity; and `handle_new_stream` accepts an incoming stream id of
    the local allocator's own parity (3 on a client). -/
theorem c4_stream_id_allocation :
    (Internal.create_stream baseInternal).1 = 1 ∧
      (Internal.create_stream (Internal.create_stream baseInternal).2).1 = 2 ∧
      (Internal.create_stream (Internal.create_stream baseInternal).2).1 % 2 = 0 ∧
      (∀ s : Internal, (Internal.create_stream s).2.next_stream_id = s.next_stream_id + 1) ∧
      baseInternal.next_stream_id % 2 = 1 ∧
      lookupStream 3 (Internal.handle_new_stream baseInternal 3).streams =
        some (DataMoneyStream.new 3) :=
  ⟨rfl, rfl, rfl, fun _ => rfl, rfl, by decide⟩

/-- Claim C8: a client connection submits on construction exactly one
    Prepare with amount 0, a random condition, destination
    `destination_account`, and data decrypting to the STREAM packet with
    sequence 1 holding one ConnectionNewAddress frame with
    `source_account`; the request id is not in `pending`, so its later
    Reject is a no-op; a server submits nothing. -/
theorem c8_handshake (ss : List Nat) (src dest : String) (rid c now : Nat) :
    ∃ i : Internal,
      connectionNew ss src dest false rid c now = some i ∧
      i.sent = [(rid, CIlpPacket.Prepare ⟨0, now + 30, Condition.random c, dest,
        CipherText.enc ss ⟨1, .IlpPrepare, 0, [Frame.ConnectionNewAddress ⟨src⟩]⟩⟩)] ∧
      StreamPacket.fromEncrypted ss
        (CipherText.enc ss ⟨1, .IlpPrepare, 0, [Frame.ConnectionNewAddress ⟨src⟩]⟩) =
        some ⟨1, .IlpPrepare, 0, [Frame.ConnectionNewAddress ⟨src⟩]⟩ ∧
      i.pending_outgoing_packets = [] ∧
      (∀ (rid2 : Nat) (rej : CIlpReject), i.handle_reject rid2 rej = some i) ∧
      ∃ j : Internal, connectionNew ss src dest true rid c now = some j ∧ j.sent = [] := by
  refine ⟨_, rfl, rfl, ?_, rfl, ?_, _, rfl, rfl⟩
  · simp [StreamPacket.fromEncrypted]
  · intro rid2 rej
    rfl

/-- Counterexample to C9 as stated: with the incoming source at
    end-of-stream, `try_handle_incoming` returns leaving the state `Open`;
    with the outgoing sink rejecting the send, `try_send` returns an error
    leaving the state `Open` — neither transitions to `Closed`. -/
theorem c9_counterexample :
    Internal.try_handle_incoming c9QueueState = some (c9QueueState, .ok) ∧
      c9QueueState.incomingClosed = true ∧
      c9QueueState.state = ConnectionState.Open ∧
      (Internal.try_send c9SendState 0 5).2 = SendOutcome.err ∧
      ((Internal.try_send c9SendState 0 5).1).state = ConnectionState.Open := by
  refine ⟨?_, rfl, rfl, ?_, ?_⟩ <;> decide

theorem try_send_resend_eq (s : Internal) (now rid : Nat) :
    ((s.try_send now rid).1).frames_to_resend = s.frames_to_resend := by
  simp only [Internal.try_send, sendOutgoing]
  repeat' split
  all_goals simp_all

theorem try_send_state_eq (s : Internal) (now rid : Nat) :
    ((s.try_send now rid).1).state =
      if s.state = .Closed then s.state
      else if s.state = .Closing then .CloseSent else s.state := by
  simp only [Internal.try_send, sendOutgoing]
  repeat' split
  all_goals simp_all

/-- Claim C9 (amended): draining or losing the incoming channel leaves the
    connection state unchanged, and `try_send` never transitions the state
    to `Closed` — channel failure is not observed as a close. -/
theorem c9_amended :
    (∀ s : Internal, s.incomingQueue = [] → s.try_handle_incoming = some (s, .ok)) ∧
      ∀ (s : Internal) (now rid : Nat), s.state ≠ .Closed →
        ((s.try_send now rid).1).state ≠ .Closed := by
  constructor
  · intro s h
    obtain ⟨st, oo, se, iq, ic, sh, sa, da, nsi, nps, strs, cs, pop, ns, fr⟩ := s
    simp only at h
    subst h
    rfl
  · intro s now rid h
    rw [try_send_state_eq, if_neg h]
    split
    · simp
    · exact h

/-- Witness for C9 (amended) at concrete states. -/
theorem c9_amended_witness :
    Internal.try_handle_incoming c9QueueState = some (c9QueueState, .ok) ∧
      ((Internal.try_send c9SendState 0 5).1).state ≠ ConnectionState.Closed :=
  ⟨c9_amended.1 c9QueueState rfl, c9_amended.2 c9SendState 0 5 (by decide)⟩

/-- Counterexample to C2 as stated: a `try_send` that emits a packet while
    `frames_to_resend` is nonempty — the emitted stream packet carries only
    the freshly collected StreamMoney frame, not the queued StreamData
    frame. -/
theorem c2_counterexample :
    ((Internal.try_send c2SendState 0 99).1).pending_outgoing_packets =
        [(99, 5, ⟨1, .IlpPrepare, 0, [Frame.StreamMoney ⟨1, 5⟩]⟩)] ∧
      ((Internal.try_send c2SendState 0 99).1).sent.length = 1 ∧
      c2SendState.frames_to_resend = [Frame.StreamData ⟨9, 0, [7]⟩] ∧
      Frame.StreamData ⟨9, 0, [7]⟩ ∉ [Frame.StreamMoney (⟨1, 5⟩ : StreamMoneyFrame)] := by
  refine ⟨?_, ?_, rfl, ?_⟩ <;> decide

/-- Claim C2 (amended): on a Reject with no recoverable response,
    `handle_reject` appends exactly the StreamData, StreamClose, and
    ConnectionClose frames of the original packet (in reverse order, via
    the pop loop) to `frames_to_resend`, dropping StreamMoney frames; but
    `try_send` never reads `frames_to_resend` — it leaves the list
    untouched and the packets it emits are unaffected by it. -/
theorem c2_amended
    (s : Internal) (request_id : Nat) (reject : CIlpReject)
    (original_amount : Nat) (original_packet : StreamPacket)
    (hentry : lookupPending request_id s.pending_outgoing_packets =
      some (original_amount, original_packet))
    (hresp : matchResponse s.shared_secret original_packet .IlpReject reject.data = none)
    (hmoney : ∀ m ∈ moneyFramesOf original_packet.frames,
      m.stream_id < 2 ^ 64 ∧ m.shares < 2 ^ 64 ∧
        (lookupStream m.stream_id s.streams).isSome = true) :
    (∃ t, s.handle_reject request_id reject = some t ∧
      t.frames_to_resend = s.frames_to_resend ++
        (original_packet.frames.reverse.filter isRetransmittableB)) ∧
    ∀ (u : Internal) (l : List Frame) (now rid : Nat),
      ((({u with frames_to_resend := l}).try_send now rid).1).sent =
          ((u.try_send now rid).1).sent ∧
        ((u.try_send now rid).1).frames_to_resend = u.frames_to_resend := by
  constructor
  · obtain ⟨s2, happ, hs2⟩ := applyRejectMoney_ok original_packet.frames
      {s with pending_outgoing_packets := removePending request_id s.pending_outgoing_packets}
      hmoney
    refine ⟨{s2 with frames_to_resend :=
      pushRetransmittable s2.frames_to_resend original_packet.frames.reverse}, ?_, ?_⟩
    · simp only [Internal.handle_reject, hentry, hresp, happ]
    · show pushRetransmittable s2.frames_to_resend original_packet.frames.reverse = _
      rw [pushRetransmittable_eq]
      have hfr : s2.frames_to_resend = s.frames_to_resend := by
        rw [hs2]
      rw [hfr]
  · intro u l now rid
    constructor
    · simp only [Internal.try_send, sendOutgoing]
      repeat' split
      all_goals simp_all
    · exact try_send_resend_eq u now rid

/-- Witness for C2 (amended) at a concrete rejected packet. -/
theorem c2_amended_witness :
    (∃ t, Internal.handle_reject c2RejState 7 c3Reject = some t ∧
      t.frames_to_resend = c2RejState.frames_to_resend ++
        (c2OrigPacket.frames.reverse.filter isRetransmittableB)) ∧
    ∀ (u : Internal) (l : List Frame) (now rid : Nat),
      ((({u with frames_to_resend := l}).try_send now rid).1).sent =
          ((u.try_send now rid).1).sent ∧
        ((u.try_send now rid).1).frames_to_resend = u.frames_to_resend :=
  c2_amended c2RejState 7 c3Reject 3 c2OrigPacket (by decide) (by decide) (by decide)

/-! Support lemmas for the money-distribution claim. -/

theorem framePreOk_money (s : Internal) (fs : List Frame)
    (h : ∀ f ∈ fs, framePreOk s f = true) :
    ∀ m ∈ moneyFramesOf fs, m.stream_id < 2 ^ 64 ∧ m.shares < 2 ^ 64 ∧
      (lookupStream m.stream_id s.streams).isSome = true := by
  intro m hm
  simp only [moneyFramesOf, List.mem_filterMap] at hm
  obtain ⟨f, hf, hfm⟩ := hm
  have hpre := h f hf
  cases f <;> simp only [Option.some.injEq, reduceCtorEq] at hfm
  case StreamMoney f =>
    subst hfm
    simp only [framePreOk, Bool.and_eq_true, decide_eq_true_eq] at hpre
    exact ⟨hpre.1.1, hpre.1.2, hpre.2⟩

theorem framePreOk_data (s : Internal) (fs : List Frame)
    (h : ∀ f ∈ fs, framePreOk s f = true) :
    ∀ d ∈ dataFramesOf fs, d.stream_id < 2 ^ 64 ∧ d.offset < 2 ^ 64 ∧
      (lookupStream d.stream_id s.streams).isSome = true := by
  intro d hd
  simp only [dataFramesOf, List.mem_filterMap] at hd
  obtain ⟨f, hf, hfd⟩ := hd
  have hpre := h f hf
  cases f <;> simp only [Option.some.injEq, reduceCtorEq] at hfd
  case StreamData f =>
    subst hfd
    simp only [framePreOk, Bool.and_eq_true, decide_eq_true_eq] at hpre
    exact ⟨hpre.1.1, hpre.1.2, hpre.2⟩

theorem framePreOk_closeFr (s : Internal) (fs : List Frame)
    (h : ∀ f ∈ fs, framePreOk s f = true) :
    ∀ c ∈ closeFramesOf fs, c.stream_id < 2 ^ 64 ∧
      (lookupStream c.stream_id s.streams).isSome = true := by
  intro c hc
  simp only [closeFramesOf, List.mem_filterMap] at hc
  obtain ⟨f, hf, hfc⟩ := hc
  have hpre := h f hf
  cases f <;> simp only [Option.some.injEq, reduceCtorEq] at hfc
  case StreamClose f =>
    subst hfc
    simp only [framePreOk, Bool.and_eq_true, decide_eq_true_eq] at hpre
    exact ⟨hpre.1, hpre.2⟩

theorem framePreOk_no_close (s : Internal) (fs : List Frame)
    (h : ∀ f ∈ fs, framePreOk s f = true) :
    ∀ f ∈ fs, isConnCloseB f = false := by
  intro f hf
  have := h f hf
  cases f <;> simp [framePreOk, isConnCloseB] at this ⊢

theorem isSome_of_keys_eq (m m' : List (Nat × DataMoneyStream))
    (h : streamKeys m = streamKeys m') (id : Nat) :
    (lookupStream id m).isSome = (lookupStream id m').isSome := by
  have h1 := lookupStream_isSome_iff id m
  have h2 := lookupStream_isSome_iff id m'
  rw [h] at h1
  by_cases hmem : id ∈ streamKeys m'
  · rw [h1.mpr hmem, h2.mpr hmem]
  · have e1 : (lookupStream id m).isSome = false := by
      cases hv : (lookupStream id m).isSome
      · rfl
      · exact absurd (h1.mp hv) hmem
    have e2 : (lookupStream id m').isSome = false := by
      cases hv : (lookupStream id m').isSome
      · rfl
      · exact absurd (h2.mp hv) hmem
    rw [e1, e2]

theorem handle_new_stream_present (s : Internal) (id : Nat)
    (hsome : (lookupStream id s.streams).isSome = true) :
    s.handle_new_stream id = s := by
  obtain ⟨st, hst⟩ := Option.isSome_iff_exists.mp hsome
  simp [Internal.handle_new_stream, hst]

theorem openNewStreams_present (fs : List Frame) (s : Internal)
    (hok : ∀ f ∈ fs, framePreOk s f = true) :
    openNewStreams s fs = some s := by
  induction fs with
  | nil => rfl
  | cons fr rest ih =>
    have htail : ∀ f ∈ rest, framePreOk s f = true :=
      fun f hf => hok f (List.mem_cons_of_mem fr hf)
    cases fr with
    | StreamMoney f =>
      have hpre := hok _ (List.mem_cons_self _ _)
      simp only [framePreOk, Bool.and_eq_true, decide_eq_true_eq] at hpre
      simp only [openNewStreams]
      rw [if_pos hpre.1.1, handle_new_stream_present s f.stream_id hpre.2]
      exact ih htail
    | StreamData f =>
      have hpre := hok _ (List.mem_cons_self _ _)
      simp only [framePreOk, Bool.and_eq_true, decide_eq_true_eq] at hpre
      simp only [openNewStreams]
      rw [if_pos hpre.1.1, handle_new_stream_present s f.stream_id hpre.2]
      exact ih htail
    | StreamClose f => exact ih htail
    | ConnectionClose f => exact ih htail
    | ConnectionNewAddress f => exact ih htail

theorem sharesSumOf_money (f : StreamMoneyFrame) (rest : List Frame) :
    sharesSumOf (Frame.StreamMoney f :: rest) = f.shares + sharesSumOf rest := by
  simp [sharesSumOf, moneyFramesOf_money]

theorem totalMoneySharesAux_eq (fs : List Frame) (acc : Nat)
    (hb : acc + sharesSumOf fs < 2 ^ 64)
    (hsh : ∀ m ∈ moneyFramesOf fs, m.shares < 2 ^ 64) :
    totalMoneySharesAux acc fs = some (acc + sharesSumOf fs) := by
  induction fs generalizing acc with
  | nil => simp [totalMoneySharesAux, sharesSumOf, moneyFramesOf]
  | cons fr rest ih =>
    cases fr with
    | StreamMoney f =>
      have hsh0 : f.shares < 2 ^ 64 := hsh f (List.mem_cons_self f _)
      rw [sharesSumOf_money] at hb
      have hmod : (acc + f.shares) % 2 ^ 64 = acc + f.shares := Nat.mod_eq_of_lt (by omega)
      simp only [totalMoneySharesAux]
      rw [if_pos hsh0, hmod,
        ih (acc + f.shares) (by omega) (fun m hm => hsh m (List.mem_cons_of_mem _ hm))]
      rw [sharesSumOf_money]
      congr 1
      omega
    | StreamData f => exact ih acc hb (fun m hm => hsh m hm)
    | StreamClose f => exact ih acc hb (fun m hm => hsh m hm)
    | ConnectionClose f => exact ih acc hb (fun m hm => hsh m hm)
    | ConnectionNewAddress f => exact ih acc hb (fun m hm => hsh m hm)

theorem totalMoneyShares_eq (fs : List Frame) (hb : sharesSumOf fs < 2 ^ 64)
    (hsh : ∀ m ∈ moneyFramesOf fs, m.shares < 2 ^ 64) :
    totalMoneyShares fs = some (sharesSumOf fs) := by
  have := totalMoneySharesAux_eq fs 0 (by omega) hsh
  simpa [totalMoneyShares] using this

theorem receivedOf_update_pres (s : Internal) (id id' : Nat)
    (g : DataMoneyStream → DataMoneyStream)
    (hg : ∀ st, (g st).money.total_received = st.money.total_received) :
    receivedOf {s with streams := updateStream id' g s.streams} id = receivedOf s id := by
  simp only [receivedOf]
  rw [lookupStream_update]
  split
  · cases hv : lookupStream id s.streams <;> simp [hv, hg]
  · rfl

theorem receivedOf_update_addc (s : Internal) (id id' c : Nat) :
    receivedOf {s with streams := updateStream id' (fun st => {st with money := st.money.add_received c}) s.streams} id =
      if id = id' then (receivedOf s id).map (fun r => r + c) else receivedOf s id := by
  simp only [receivedOf]
  rw [lookupStream_update]
  split
  · cases hv : lookupStream id s.streams <;> simp [hv, MoneyStreamState.add_received]
  · rfl

theorem creditSumOf_money (f : StreamMoneyFrame) (rest : List Frame) (id amount total : Nat) :
    creditSumOf (Frame.StreamMoney f :: rest) id amount total =
      (if id = f.stream_id then f.shares * amount % 2 ^ 64 / total else 0) +
        creditSumOf rest id amount total := by
  simp only [creditSumOf, moneyFramesOf_money, List.filter_cons]
  by_cases h : id = f.stream_id
  · simp [h]
  · have h' : (f.stream_id == id) = false :=
      beq_eq_false_iff_ne.mpr (fun hcon => h hcon.symm)
    simp [h', h]

theorem handleIncomingDataFrames_spec (fs : List Frame) (s : Internal)
    (hok : ∀ d ∈ dataFramesOf fs, d.stream_id < 2 ^ 64 ∧ d.offset < 2 ^ 64 ∧
      (lookupStream d.stream_id s.streams).isSome = true) :
    ∃ t, handleIncomingDataFrames s fs = some t ∧
      t = {s with streams := t.streams} ∧
      streamKeys t.streams = streamKeys s.streams ∧
      (∀ id, receivedOf t id = receivedOf s id) ∧
      totalReceivedL t.streams = totalReceivedL s.streams := by
  induction fs generalizing s with
  | nil => exact ⟨s, rfl, rfl, rfl, fun _ => rfl, rfl⟩
  | cons fr rest ih =>
    cases fr with
    | StreamData f =>
      obtain ⟨hid, hoff, hsome⟩ := hok f (List.mem_cons_self f _)
      obtain ⟨st, hst⟩ := Option.isSome_iff_exists.mp hsome
      have hok' : ∀ d ∈ dataFramesOf rest, d.stream_id < 2 ^ 64 ∧ d.offset < 2 ^ 64 ∧
          (lookupStream d.stream_id (updateStream f.stream_id (fun st => {st with data := {st.data with incoming := st.data.incoming ++ [(f.data, f.offset)]}}) s.streams)).isSome = true := by
        intro d hd
        obtain ⟨h1, h2, h3⟩ := hok d (List.mem_cons_of_mem f hd)
        exact ⟨h1, h2, by rw [lookupStream_update_isSome]; exact h3⟩
      obtain ⟨t, ht, hf2, hk2, hr2, htt2⟩ := ih {s with streams := updateStream f.stream_id (fun st => {st with data := {st.data with incoming := st.data.incoming ++ [(f.data, f.offset)]}}) s.streams} hok'
      refine ⟨t, ?_, hf2.trans rfl, ?_, ?_, ?_⟩
      · simp only [handleIncomingDataFrames]
        rw [if_pos ⟨hid, hoff⟩, hst]
        exact ht
      · rw [hk2]
        exact streamKeys_update _ _ _
      · intro id
        rw [hr2 id]
        exact receivedOf_update_pres s id f.stream_id _ (fun st => rfl)
      · rw [htt2]
        exact totalReceivedL_update_preserve _ _ _ (fun st => rfl)
    | StreamMoney f => exact ih s (fun d hd => hok d hd)
    | StreamClose f => exact ih s (fun d hd => hok d hd)
    | ConnectionClose f => exact ih s (fun d hd => hok d hd)
    | ConnectionNewAddress f => exact ih s (fun d hd => hok d hd)

theorem handleStreamCloses_spec (fs : List Frame) (s : Internal)
    (hok : ∀ c ∈ closeFramesOf fs, c.stream_id < 2 ^ 64 ∧
      (lookupStream c.stream_id s.streams).isSome = true) :
    ∃ t, handleStreamCloses s fs = some t ∧
      t = {s with streams := t.streams} ∧
      streamKeys t.streams = streamKeys s.streams ∧
      (∀ id, receivedOf t id = receivedOf s id) ∧
      totalReceivedL t.streams = totalReceivedL s.streams := by
  induction fs generalizing s with
  | nil => exact ⟨s, rfl, rfl, rfl, fun _ => rfl, rfl⟩
  | cons fr rest ih =>
    cases fr with
    | StreamClose f =>
      obtain ⟨hid, hsome⟩ := hok f (List.mem_cons_self f _)
      obtain ⟨st, hst⟩ := Option.isSome_iff_exists.mp hsome
      have hok' : ∀ c ∈ closeFramesOf rest, c.stream_id < 2 ^ 64 ∧
          (lookupStream c.stream_id (updateStream f.stream_id (fun st => {st with closed := true}) s.streams)).isSome = true := by
        intro c hc
        obtain ⟨h1, h3⟩ := hok c (List.mem_cons_of_mem f hc)
        exact ⟨h1, by rw [lookupStream_update_isSome]; exact h3⟩
      obtain ⟨t, ht, hf2, hk2, hr2, htt2⟩ := ih {s with streams := updateStream f.stream_id (fun st => {st with closed := true}) s.streams} hok'
      refine ⟨t, ?_, hf2.trans rfl, ?_, ?_, ?_⟩
      · simp only [handleStreamCloses]
        rw [if_pos hid, hst]
        exact ht
      · rw [hk2]
        exact streamKeys_update _ _ _
      · intro id
        rw [hr2 id]
        exact receivedOf_update_pres s id f.stream_id _ (fun st => rfl)
      · rw [htt2]
        exact totalReceivedL_update_preserve _ _ _ (fun st => rfl)
    | StreamMoney f => exact ih s (fun c hc => hok c hc)
    | StreamData f => exact ih s (fun c hc => hok c hc)
    | ConnectionClose f => exact ih s (fun c hc => hok c hc)
    | ConnectionNewAddress f => exact ih s (fun c hc => hok c hc)

theorem handleConnectionClose_id (fs : List Frame) (s : Internal)
    (h : ∀ f ∈ fs, isConnCloseB f = false) :
    handleConnectionClose s fs = s := by
  induction fs generalizing s with
  | nil => rfl
  | cons fr rest ih =>
    cases fr with
    | ConnectionClose f => simpa [isConnCloseB] using h _ (List.mem_cons_self _ _)
    | StreamMoney f => exact ih s (fun f' hf => h f' (List.mem_cons_of_mem _ hf))
    | StreamData f => exact ih s (fun f' hf => h f' (List.mem_cons_of_mem _ hf))
    | StreamClose f => exact ih s (fun f' hf => h f' (List.mem_cons_of_mem _ hf))
    | ConnectionNewAddress f => exact ih s (fun f' hf => h f' (List.mem_cons_of_mem _ hf))

theorem applyMoneyFrames_spec (amount total : Nat) (fs : List Frame) (s : Internal)
    (hok : ∀ m ∈ moneyFramesOf fs, m.stream_id < 2 ^ 64 ∧ m.shares < 2 ^ 64 ∧
      (lookupStream m.stream_id s.streams).isSome = true)
    (htot : 0 < total)
    (hkeys : (streamKeys s.streams).Nodup) :
    ∃ t, applyMoneyFrames amount total s fs = some t ∧
      t = {s with streams := t.streams} ∧
      streamKeys t.streams = streamKeys s.streams ∧
      (∀ id, receivedOf t id =
        (receivedOf s id).map (fun r => r + creditSumOf fs id amount total)) ∧
      totalReceivedL t.streams = totalReceivedL s.streams +
        ((moneyFramesOf fs).map (fun m => m.shares * amount % 2 ^ 64 / total)).sum := by
  induction fs generalizing s with
  | nil =>
    refine ⟨s, rfl, rfl, rfl, ?_, by simp [moneyFramesOf]⟩
    intro id
    cases h : receivedOf s id <;> simp [creditSumOf, moneyFramesOf]
  | cons fr rest ih =>
    cases fr with
    | StreamMoney f =>
      obtain ⟨hid, hsh, hsome⟩ := hok f (List.mem_cons_self f _)
      obtain ⟨st, hst⟩ := Option.isSome_iff_exists.mp hsome
      have hok' : ∀ m ∈ moneyFramesOf rest, m.stream_id < 2 ^ 64 ∧ m.shares < 2 ^ 64 ∧
          (lookupStream m.stream_id (updateStream f.stream_id (fun st => {st with money := st.money.add_received (f.shares * amount % 2 ^ 64 / total)}) s.streams)).isSome = true := by
        intro m hm
        obtain ⟨h1, h2, h3⟩ := hok m (List.mem_cons_of_mem _ hm)
        exact ⟨h1, h2, by rw [lookupStream_update_isSome]; exact h3⟩
      have hkeys' : (streamKeys (updateStream f.stream_id (fun st => {st with money := st.money.add_received (f.shares * amount % 2 ^ 64 / total)}) s.streams)).Nodup := by
        rw [streamKeys_update]
        exact hkeys
      obtain ⟨t, ht, hf2, hk2, hr2, htt2⟩ := ih {s with streams := updateStream f.stream_id (fun st => {st with money := st.money.add_received (f.shares * amount % 2 ^ 64 / total)}) s.streams} hok' hkeys'
      refine ⟨t, ?_, hf2.trans rfl, ?_, ?_, ?_⟩
      · simp only [applyMoneyFrames]
        rw [if_pos ⟨hid, hsh⟩, hst, if_neg (by omega)]
        exact ht
      · rw [hk2]
        exact streamKeys_update _ _ _
      · intro id
        rw [hr2 id, receivedOf_update_addc s id f.stream_id _, creditSumOf_money]
        by_cases hidq : id = f.stream_id
        · rw [if_pos hidq, if_pos hidq]
          cases hv : receivedOf s id <;> simp [hv, Nat.add_assoc]
        · rw [if_neg hidq, if_neg hidq]
          simp
      · rw [htt2, totalReceivedL_update_add f.stream_id _ s.streams hsome hkeys,
          moneyFramesOf_money]
        simp only [List.map_cons, List.sum_cons]
        omega
    | StreamData f =>
      obtain ⟨t, ht, hf2, hk2, hr2, htt2⟩ := ih s (fun m hm => hok m hm) hkeys
      exact ⟨t, ht, hf2, hk2,
        fun id => by rw [hr2 id]; simp [creditSumOf, moneyFramesOf_data],
        by rw [htt2]; simp [moneyFramesOf_data]⟩
    | StreamClose f =>
      obtain ⟨t, ht, hf2, hk2, hr2, htt2⟩ := ih s (fun m hm => hok m hm) hkeys
      exact ⟨t, ht, hf2, hk2,
        fun id => by rw [hr2 id]; simp [creditSumOf, moneyFramesOf_closeFrame],
        by rw [htt2]; simp [moneyFramesOf_closeFrame]⟩
    | ConnectionClose f =>
      obtain ⟨t, ht, hf2, hk2, hr2, htt2⟩ := ih s (fun m hm => hok m hm) hkeys
      exact ⟨t, ht, hf2, hk2,
        fun id => by rw [hr2 id]; simp [creditSumOf, moneyFramesOf_connClose],
        by rw [htt2]; simp [moneyFramesOf_connClose]⟩
    | ConnectionNewAddress f =>
      obtain ⟨t, ht, hf2, hk2, hr2, htt2⟩ := ih s (fun m hm => hok m hm) hkeys
      exact ⟨t, ht, hf2, hk2,
        fun id => by rw [hr2 id]; simp [creditSumOf, moneyFramesOf_newAddr],
        by rw [htt2]; simp [moneyFramesOf_newAddr]⟩

theorem filter_key_singleton (l : List StreamMoneyFrame) (m : StreamMoneyFrame)
    (hm : m ∈ l) (hnodup : (l.map (fun x => x.stream_id)).Nodup) :
    l.filter (fun x => x.stream_id == m.stream_id) = [m] := by
  induction l with
  | nil => cases hm
  | cons b t ih =>
    simp only [List.map_cons, List.nodup_cons] at hnodup
    rcases List.mem_cons.mp hm with rfl | hmt
    · have htail : t.filter (fun x => x.stream_id == m.stream_id) = [] := by
        rw [List.filter_eq_nil_iff]
        intro x hx
        have hxmem : x.stream_id ∈ t.map (fun x => x.stream_id) :=
          List.mem_map.mpr ⟨x, hx, rfl⟩
        simp only [beq_iff_eq]
        intro hcon
        exact hnodup.1 (hcon ▸ hxmem)
      simp [List.filter_cons, htail]
    · have hbm : b.stream_id ≠ m.stream_id := by
        intro hcon
        have : m.stream_id ∈ t.map (fun x => x.stream_id) :=
          List.mem_map.mpr ⟨m, hmt, rfl⟩
        exact hnodup.1 (hcon ▸ this)
      have hne : (b.stream_id == m.stream_id) = false := beq_eq_false_iff_ne.mpr hbm
      simp only [List.filter_cons, hne, Bool.false_eq_true, if_false]
      exact ih hmt hnodup.2

theorem creditSumOf_nodup (fs : List Frame) (amount total : Nat) (m : StreamMoneyFrame)
    (hm : m ∈ moneyFramesOf fs)
    (hnodup : ((moneyFramesOf fs).map (fun m => m.stream_id)).Nodup) :
    creditSumOf fs m.stream_id amount total = m.shares * amount % 2 ^ 64 / total := by
  unfold creditSumOf
  rw [filter_key_singleton (moneyFramesOf fs) m hm hnodup]
  simp

theorem div_add_div_le (a b T : Nat) : a / T + b / T ≤ (a + b) / T := by
  rcases Nat.eq_zero_or_pos T with h | h
  · simp [h]
  · rw [Nat.le_div_iff_mul_le h, Nat.add_mul]
    exact Nat.add_le_add (Nat.div_mul_le_self a T) (Nat.div_mul_le_self b T)

theorem sum_div_le (xs : List Nat) (T : Nat) :
    (xs.map (fun x => x / T)).sum ≤ xs.sum / T := by
  induction xs with
  | nil => simp
  | cons x t ih =>
    simp only [List.map_cons, List.sum_cons]
    calc x / T + (t.map (fun x => x / T)).sum ≤ x / T + t.sum / T :=
          Nat.add_le_add_left ih _
      _ ≤ (x + t.sum) / T := div_add_div_le x t.sum T

/-- Claim C5: for a fulfillable incoming Prepare whose decrypted STREAM
    packet references only live streams within u64 bounds, each StreamMoney
    frame's stream is credited exactly
    `prepare.amount * shares_i / total_shares` under integer division, and
    the undistributed remainder is credited to no stream: the total received
    across all streams grows by exactly the sum of the per-frame credits,
    which is at most `prepare.amount`. -/
theorem c5_money_distribution
    (s : Internal) (request_id : Nat) (prepare : CIlpPrepare) (packet : StreamPacket)
    (hdata : prepare.data = StreamPacket.toEncrypted s.shared_secret packet)
    (hcond : prepare.execution_condition =
      fulfillment_to_condition (generate_fulfillment s.shared_secret prepare.data))
    (hframes : ∀ f ∈ packet.frames, framePreOk s f = true)
    (hopen : s.outgoingOpen = true)
    (hkeys : (streamKeys s.streams).Nodup)
    (htot : 0 < sharesSumOf packet.frames)
    (hsum : sharesSumOf packet.frames < 2 ^ 64)
    (hprod : ∀ m ∈ moneyFramesOf packet.frames, m.shares * prepare.amount < 2 ^ 64)
    (hnodup : ((moneyFramesOf packet.frames).map (fun m => m.stream_id)).Nodup) :
    ∃ t, s.handle_incoming_prepare request_id prepare = some (t, .ok) ∧
      (∀ m ∈ moneyFramesOf packet.frames, ∃ r,
        receivedOf s m.stream_id = some r ∧
        receivedOf t m.stream_id =
          some (r + prepare.amount * m.shares / sharesSumOf packet.frames)) ∧
      totalReceivedOf t = totalReceivedOf s +
        ((moneyFramesOf packet.frames).map
          (fun m => prepare.amount * m.shares / sharesSumOf packet.frames)).sum ∧
      ((moneyFramesOf packet.frames).map
        (fun m => prepare.amount * m.shares / sharesSumOf packet.frames)).sum ≤
        prepare.amount := by
  have hokM := framePreOk_money s packet.frames hframes
  have hokD := framePreOk_data s packet.frames hframes
  have hokC := framePreOk_closeFr s packet.frames hframes
  have hshares : ∀ m ∈ moneyFramesOf packet.frames, m.shares < 2 ^ 64 :=
    fun m hm => (hokM m hm).2.1
  obtain ⟨s2, happ, hf2, hk2, hr2, ht2⟩ :=
    applyMoneyFrames_spec prepare.amount (sharesSumOf packet.frames) packet.frames s hokM
      htot hkeys
  have hokD2 : ∀ d ∈ dataFramesOf packet.frames, d.stream_id < 2 ^ 64 ∧ d.offset < 2 ^ 64 ∧
      (lookupStream d.stream_id s2.streams).isSome = true := by
    intro d hd
    obtain ⟨h1, h2, h3⟩ := hokD d hd
    exact ⟨h1, h2, by rw [isSome_of_keys_eq s2.streams s.streams hk2]; exact h3⟩
  obtain ⟨s3, hdat, hf3, hk3, hr3, ht3⟩ := handleIncomingDataFrames_spec packet.frames s2 hokD2
  have hokC3 : ∀ c ∈ closeFramesOf packet.frames, c.stream_id < 2 ^ 64 ∧
      (lookupStream c.stream_id s3.streams).isSome = true := by
    intro c hc
    obtain ⟨h1, h3⟩ := hokC c hc
    refine ⟨h1, ?_⟩
    rw [isSome_of_keys_eq s3.streams s2.streams hk3,
      isSome_of_keys_eq s2.streams s.streams hk2]
    exact h3
  obtain ⟨s4, hcl, hf4, hk4, hr4, ht4⟩ := handleStreamCloses_spec packet.frames s3 hokC3
  have hccid : handleConnectionClose s4 packet.frames = s4 :=
    handleConnectionClose_id packet.frames s4 (framePreOk_no_close s packet.frames hframes)
  have hdec : StreamPacket.fromEncrypted s.shared_secret prepare.data = some packet := by
    rw [hdata]
    simp [StreamPacket.toEncrypted, StreamPacket.fromEncrypted]
  have hful : (fulfillment_to_condition (generate_fulfillment s.shared_secret prepare.data) ==
      prepare.execution_condition) = true := by
    rw [hcond]
    simp
  have htms : totalMoneyShares packet.frames = some (sharesSumOf packet.frames) :=
    totalMoneyShares_eq packet.frames hsum hshares
  have hopenNS : openNewStreams s packet.frames = some s :=
    openNewStreams_present packet.frames s hframes
  have e4 : s4.outgoingOpen = s3.outgoingOpen := by rw [hf4]
  have e3 : s3.outgoingOpen = s2.outgoingOpen := by rw [hf3]
  have e2 : s2.outgoingOpen = s.outgoingOpen := by rw [hf2]
  have hs4open : s4.outgoingOpen = true := by rw [e4, e3, e2]; exact hopen
  refine ⟨{s4 with sent := s4.sent ++ [(request_id, CIlpPacket.Fulfill
    ⟨generate_fulfillment s.shared_secret prepare.data,
     CipherText.enc s4.shared_secret ⟨packet.sequence, .IlpFulfill, prepare.amount, []⟩⟩)]},
    ?_, ?_, ?_, ?_⟩
  · simp only [Internal.handle_incoming_prepare, hdec, hopenNS, htms, hful, happ, hdat, hcl,
      hccid, hs4open, if_true]
  · intro m hm
    have hsomeM := (hokM m hm).2.2
    obtain ⟨v, hv⟩ := Option.isSome_iff_exists.mp hsomeM
    refine ⟨v.money.total_received, by simp [receivedOf, hv], ?_⟩
    show receivedOf s4 m.stream_id = _
    rw [hr4 m.stream_id, hr3 m.stream_id, hr2 m.stream_id]
    rw [show receivedOf s m.stream_id = some v.money.total_received by simp [receivedOf, hv]]
    rw [Option.map_some']
    rw [creditSumOf_nodup packet.frames prepare.amount (sharesSumOf packet.frames) m hm hnodup]
    rw [Nat.mod_eq_of_lt (hprod m hm), Nat.mul_comm]
  · show totalReceivedL s4.streams = totalReceivedL s.streams + _
    rw [ht4, ht3, ht2]
    congr 1
    apply congrArg
    apply List.map_congr_left
    intro m hm
    rw [Nat.mod_eq_of_lt (hprod m hm), Nat.mul_comm]
  · have h1 : ((moneyFramesOf packet.frames).map
        (fun m => prepare.amount * m.shares / sharesSumOf packet.frames)).sum ≤
        ((moneyFramesOf packet.frames).map (fun m => prepare.amount * m.shares)).sum /
          sharesSumOf packet.frames := by
      have := sum_div_le ((moneyFramesOf packet.frames).map (fun m => prepare.amount * m.shares))
        (sharesSumOf packet.frames)
      simpa [List.map_map, Function.comp] using this
    have h2 : ((moneyFramesOf packet.frames).map (fun m => prepare.amount * m.shares)).sum =
        prepare.amount * sharesSumOf packet.frames := by
      rw [sharesSumOf, ← List.sum_map_mul_left]
    calc ((moneyFramesOf packet.frames).map
          (fun m => prepare.amount * m.shares / sharesSumOf packet.frames)).sum ≤
        ((moneyFramesOf packet.frames).map (fun m => prepare.amount * m.shares)).sum /
          sharesSumOf packet.frames := h1
      _ = prepare.amount * sharesSumOf packet.frames / sharesSumOf packet.frames := by rw [h2]
      _ = prepare.amount := Nat.mul_div_cancel prepare.amount htot

/-- Witness for C5 at a concrete two-stream packet: amount 100 split over
    shares 5 and 10 credits 33 and 66, retaining the remainder 1. -/
theorem c5_money_distribution_witness :
    ∃ t, Internal.handle_incoming_prepare c5State 11 c5Prepare = some (t, .ok) ∧
      (∀ m ∈ moneyFramesOf c5Packet.frames, ∃ r,
        receivedOf c5State m.stream_id = some r ∧
        receivedOf t m.stream_id =
          some (r + c5Prepare.amount * m.shares / sharesSumOf c5Packet.frames)) ∧
      totalReceivedOf t = totalReceivedOf c5State +
        ((moneyFramesOf c5Packet.frames).map
          (fun m => c5Prepare.amount * m.shares / sharesSumOf c5Packet.frames)).sum ∧
      ((moneyFramesOf c5Packet.frames).map
        (fun m => c5Prepare.amount * m.shares / sharesSumOf c5Packet.frames)).sum ≤
        c5Prepare.amount :=
  c5_money_distribution c5State 11 c5Prepare c5Packet (by decide) (by decide) (by decide)
    (by decide) (by decide) (by decide) (by decide) (by decide) (by decide)

/-- Claim C10: `handle_incoming_prepare` assumes every referenced stream id
    is a key of the streams map; a fulfillable Prepare whose StreamMoney
    frame names a closed stream id, or whose StreamClose frame names a
    never-opened id, makes the map index panic instead of ignoring the
    frame or rejecting the packet. -/
theorem c10_missing_stream_panics :
    Internal.handle_incoming_prepare c10State 5 c10PrepareA = none ∧
      Internal.handle_incoming_prepare c10State 6 c10PrepareB = none := by
  constructor <;> decide

end IlpRs
